import Mathlib

/-
  Verification development for the Unified Drive-Adapter Layer of
  cloud-auto-save (src/adapters/*.py, src/app/run.py).

  The Python source is embedded shallowly: pure fragments become Lean
  functions, the factory's mutable instance cache becomes explicit state
  passing, HTTP transports become scripted response sequences, and Python
  exceptions become `Except` values that the translated `try/except`
  blocks catch.  Machine reference identity of adapter objects is modelled
  by allocation counters (two objects are "the same instance" iff they
  carry the same allocation id).
-/

namespace CloudAutoSave

/-! ## Adapter factory and instance cache (src/adapters/adapter_factory.py) -/

/-- Keys of `AdapterFactory.ADAPTER_MAP` (adapter_factory.py lines 23-30). -/
def ADAPTER_MAP : List String := ["quark", "115", "baidu", "xunlei", "aliyun", "uc"]

/-- Model of `hashlib.md5(cookie.encode("utf-8")).hexdigest()[:16]` used by
`AdapterFactory._make_cache_key`: a deterministic stable hash of the cookie
string.  Like the truncated md5 digest of the source it is a pure function of
the cookie's characters; collisions are possible, as for truncated md5. -/
def cookieHash (cookie : String) : Nat :=
  cookie.data.foldl (fun h c => (h * 131 + c.toNat) % (2 ^ 64)) 5381

/-- Model of `AdapterFactory._make_cache_key` (adapter_factory.py lines 45-49):
the cache key string `f"(drive_type):(cookie_hash)"`. -/
def make_cache_key (drive_type cookie : String) : String :=
  drive_type ++ ":" ++ toString (cookieHash cookie)

/-- State of the factory's class-level instance cache `_instance_cache`
together with an allocation counter that models object identity: each
freshly constructed adapter receives the next id. -/
structure FactoryState where
  cache : List (String × Nat)
  nextId : Nat
deriving Repr, DecidableEq

/-- The cache at process start: empty. -/
def initialFactory : FactoryState := ⟨[], 0⟩

/-- Model of `AdapterFactory.create_adapter` (adapter_factory.py lines 71-103):
unknown drive type yields `none`; a cached key returns the cached instance;
otherwise a fresh instance is constructed, cached and returned. -/
def create_adapter (s : FactoryState) (drive_type cookie : String) :
    Option Nat × FactoryState :=
  if drive_type ∈ ADAPTER_MAP then
    let key := make_cache_key drive_type cookie
    match s.cache.lookup key with
    | some inst => (some inst, s)
    | none => (some s.nextId, ⟨(key, s.nextId) :: s.cache, s.nextId + 1⟩)
  else
    (none, s)

/-- Model of `AdapterFactory.clear_cache` (adapter_factory.py lines 105-108). -/
def clear_cache (s : FactoryState) : FactoryState :=
  ⟨[], s.nextId⟩

/-- Well-formedness of the cache state: every cached instance id was allocated
below the allocation counter.  Holds for the initial state and is preserved by
both operations. -/
def CacheWF (s : FactoryState) : Prop :=
  ∀ p ∈ s.cache, p.2 < s.nextId

/-! ## Token-rotation persistence (aliyun_adapter.py lines 63-102,
    xunlei_adapter.py lines 69-105)

    Both `_config_saver_factory.save_config` closures have the same body up
    to the drive-type literal, so they are embedded once, parameterized by
    the drive type.  `current_time` is the value of `time.time()` taken when
    the write is applied. -/

/-- One entry of the configuration's `accounts` list, restricted to the fields
`save_config` reads or writes.  `token_updated_at` models the
`_token_updated_at` key (0 when absent). -/
structure Account where
  name : String
  drive_type : String
  cookie : String
  token_updated_at : Nat
deriving Repr, DecidableEq

/-- Model of the loop body of `save_config`: walks the accounts list, updating
the cookie and stamping `current_time` on each account of the matching drive
type; with a non-empty `account_name` only the matching account is updated and
the loop breaks after it.  Returns the new list and the `updated` flag. -/
def save_config_go (dt new_refresh_token account_name : String) (current_time : Nat) :
    List Account → List Account × Bool
  | [] => ([], false)
  | acc :: rest =>
    if acc.drive_type = dt then
      if account_name ≠ "" ∧ acc.name ≠ account_name then
        let (r, u) := save_config_go dt new_refresh_token account_name current_time rest
        (acc :: r, u)
      else
        let acc' : Account :=
          { acc with cookie := new_refresh_token, token_updated_at := current_time }
        if account_name ≠ "" then
          (acc' :: rest, true)
        else
          let (r, _) := save_config_go dt new_refresh_token account_name current_time rest
          (acc' :: r, true)
    else
      let (r, u) := save_config_go dt new_refresh_token account_name current_time rest
      (acc :: r, u)

/-- Model of `save_config` itself: the config file's account list is rewritten
only when some account matched (`updated`), otherwise it is left unchanged.
No stored timestamp is ever compared before writing. -/
def save_config (dt new_refresh_token account_name : String) (current_time : Nat)
    (accounts : List Account) : List Account :=
  let (r, updated) := save_config_go dt new_refresh_token account_name current_time accounts
  if updated then r else accounts

/-! ## Theorems for the factory cache (claim C1) -/

theorem lookup_mem_values {l : List (String × Nat)} {k : String} {v : Nat}
    (h : l.lookup k = some v) : ∃ k', (k', v) ∈ l := by
  induction l with
  | nil => simp [List.lookup] at h
  | cons p rest ih =>
    rw [List.lookup] at h
    by_cases hk : k = p.1
    · refine ⟨p.1, ?_⟩
      simp [hk] at h
      simp [← h]
    · have hbeq : (k == p.1) = false := by
        simp [hk]
      rw [hbeq] at h
      obtain ⟨k', hk'⟩ := ih h
      exact ⟨k', List.mem_cons_of_mem _ hk'⟩

/-- C1: for every drive type in the adapter map and every cookie, two
consecutive `create_adapter` calls with identical arguments return the same
instance (the same allocation id, i.e. reference equality), a further call
after `clear_cache` returns a freshly constructed different instance, and the
cache key factors through the drive type and the stable hash of the cookie. -/
theorem C1_factory_cache (s : FactoryState) (dt cookie : String)
    (hdt : dt ∈ ADAPTER_MAP) (hwf : CacheWF s) :
    ∃ i : Nat,
      (create_adapter s dt cookie).1 = some i ∧
      (create_adapter (create_adapter s dt cookie).2 dt cookie).1 = some i ∧
      (∃ j : Nat,
        (create_adapter
          (clear_cache (create_adapter (create_adapter s dt cookie).2 dt cookie).2)
          dt cookie).1 = some j ∧ j ≠ i) ∧
      (∀ cookie2 : String, cookieHash cookie2 = cookieHash cookie →
        make_cache_key dt cookie2 = make_cache_key dt cookie) := by
  have hkey : ∀ cookie2 : String, cookieHash cookie2 = cookieHash cookie →
      make_cache_key dt cookie2 = make_cache_key dt cookie := by
    intro c2 hc2
    unfold make_cache_key
    rw [hc2]
  cases hl : s.cache.lookup (make_cache_key dt cookie) with
  | some inst =>
    have h1 : create_adapter s dt cookie = (some inst, s) := by
      unfold create_adapter; simp [hdt, hl]
    have h3 : create_adapter ⟨[], s.nextId⟩ dt cookie
        = (some s.nextId, ⟨[(make_cache_key dt cookie, s.nextId)], s.nextId + 1⟩) := by
      unfold create_adapter; simp [hdt, List.lookup]
    refine ⟨inst, ?_, ?_, ⟨s.nextId, ?_, ?_⟩, hkey⟩
    · rw [h1]
    · rw [h1, h1]
    · rw [h1, h1]
      show (create_adapter (clear_cache s) dt cookie).1 = some s.nextId
      unfold clear_cache
      rw [h3]
    · obtain ⟨k', hmem⟩ := lookup_mem_values hl
      have := hwf (k', inst) hmem
      omega
  | none =>
    set k := make_cache_key dt cookie with hk
    have h1 : create_adapter s dt cookie
        = (some s.nextId, ⟨(k, s.nextId) :: s.cache, s.nextId + 1⟩) := by
      unfold create_adapter; simp [hdt, hl]
    have h2 : create_adapter ⟨(k, s.nextId) :: s.cache, s.nextId + 1⟩ dt cookie
        = (some s.nextId, ⟨(k, s.nextId) :: s.cache, s.nextId + 1⟩) := by
      unfold create_adapter
      simp [hdt, List.lookup]
    have h3 : create_adapter ⟨[], s.nextId + 1⟩ dt cookie
        = (some (s.nextId + 1), ⟨[(k, s.nextId + 1)], s.nextId + 2⟩) := by
      unfold create_adapter; simp [hdt, List.lookup]
    refine ⟨s.nextId, ?_, ?_, ⟨s.nextId + 1, ?_, ?_⟩, hkey⟩
    · rw [h1]
    · rw [h1, h2]
    · rw [h1, h2]
      show (create_adapter (clear_cache _) dt cookie).1 = some (s.nextId + 1)
      unfold clear_cache
      rw [h3]
    · omega

/-- C1 witness: the theorem applied to the empty initial cache, drive type
"quark" and a concrete cookie. -/
theorem C1_factory_cache_witness :
    "quark" ∈ ADAPTER_MAP ∧ CacheWF initialFactory ∧
    ∃ i : Nat,
      (create_adapter initialFactory "quark" "ck=1").1 = some i ∧
      (create_adapter (create_adapter initialFactory "quark" "ck=1").2 "quark" "ck=1").1
        = some i ∧
      (∃ j : Nat,
        (create_adapter
          (clear_cache
            (create_adapter (create_adapter initialFactory "quark" "ck=1").2
              "quark" "ck=1").2)
          "quark" "ck=1").1 = some j ∧ j ≠ i) ∧
      (∀ cookie2 : String, cookieHash cookie2 = cookieHash "ck=1" →
        make_cache_key "quark" cookie2 = make_cache_key "quark" "ck=1") :=
  ⟨by decide, by simp [CacheWF, initialFactory],
    C1_factory_cache initialFactory "quark" "ck=1" (by decide)
      (by simp [CacheWF, initialFactory])⟩

/-! ## Theorems for token-rotation persistence (claim C2)

    The claim states the anti-rollback property: a rotation write is applied
    only if its timestamp is at least the stored one, so that applying the
    newer rotation's write first and the older one's write afterwards leaves
    the newer secret in place.  The code records `_token_updated_at` "to
    prevent rollback" (its own comment), but `save_config` never compares the
    stored timestamp: it overwrites unconditionally, stamping the wall-clock
    time of the write, so the last write always wins. -/

/-- C2: failing input.  One aliyun account; the rotation with the newer
timestamp T2 = 200 is persisted first (wall-clock 1000), then the rotation
with the older timestamp T1 = 100 is persisted (wall-clock 1001).  The
stored secret ends at T1's token, not T2's: `save_config` applied the older
write unconditionally. -/
theorem C2_rotation_rollback :
    (save_config "aliyun" "tok_T2" "" 1000 [⟨"acct1", "aliyun", "tok_old", 0⟩]
      = [⟨"acct1", "aliyun", "tok_T2", 1000⟩]) ∧
    (save_config "aliyun" "tok_T1" "" 1001 [⟨"acct1", "aliyun", "tok_T2", 1000⟩]
      = [⟨"acct1", "aliyun", "tok_T1", 1001⟩]) ∧
    ((save_config "aliyun" "tok_T1" "" 1001
        (save_config "aliyun" "tok_T2" "" 1000
          [⟨"acct1", "aliyun", "tok_old", 0⟩])).map Account.cookie
      ≠ ["tok_T2"]) := by
  refine ⟨?_, ?_, ?_⟩ <;> decide

/-! ## Paginated listing loops (claim C5)

    aliyun_adapter.py `get_detail` (lines 389-447) follows an opaque marker:
    it requests pages with `limit: 100` and loops `while True`, breaking only
    when `next_marker` is empty.  cloud115_adapter.py `get_detail`
    (lines 163-231) follows an offset scheme with `limit = 50`, breaking on an
    empty page or a short page.  The provider transport is embedded as the
    script of successive responses the loop consumes; converted items are an
    abstract per-item map. -/

/-- The aliyun error code table `AliyunAdapter.ERROR_CODES`
(aliyun_adapter.py lines 165-179). -/
def ALIYUN_ERROR_CODES : List (String × String) :=
  [("ShareLinkTokenInvalid", "分享链接 Token 无效"),
   ("NotFound.ShareLink", "分享链接不存在或已过期"),
   ("ShareLink.Cancelled", "分享链接已取消"),
   ("ShareLink.Forbidden", "分享链接被禁止访问"),
   ("InvalidResource.SharePwd", "提取码错误"),
   ("ParamFlowException", "请求过于频繁，请稍后重试"),
   ("ForbiddenNoPermission.File", "没有文件操作权限"),
   ("AlreadyExist.File", "文件已存在"),
   ("NotFound.File", "文件不存在"),
   ("InvalidParameter", "参数错误"),
   ("AccessTokenInvalid", "访问令牌无效，请重新登录"),
   ("RefreshTokenExpired", "刷新令牌已过期，请重新登录"),
   ("UserDeviceOffline", "设备已离线")]

/-- Model of `AliyunAdapter._get_error_message` (aliyun_adapter.py
lines 203-205). -/
def aliyun_error_message (code : String) : String :=
  match ALIYUN_ERROR_CODES.lookup code with
  | some m => m
  | none => "未知错误 (" ++ code ++ ")"

/-- One provider response consumed by the aliyun marker loop: either the
request raised inside the `try` block, or a parsed body with an optional
error `code`, the page `items` and the `next_marker`. -/
inductive AliyunPageResp (α : Type) where
  | raiseE (msg : String)
  | page (code : Option String) (items : List α) (next_marker : String)
deriving DecidableEq, Repr

/-- What an adapter listing body evaluates to: the error dict
(`code 1` with a message) or the merged file list. -/
inductive ListLoopResult (β : Type) where
  | errorResult (msg : String)
  | ok (l : List β)
deriving DecidableEq, Repr

/-- Model of the `while True` marker loop of `AliyunAdapter.get_detail`
(aliyun_adapter.py lines 402-432): a raised request is caught by the
enclosing `try` and becomes an error dict; a truthy `code` becomes an error
dict; otherwise the page's converted items are appended and the loop breaks
exactly when `next_marker` is empty — page emptiness is not consulted. -/
def aliyun_get_detail_loop {α β : Type} (conv : α → β) (file_list : List β) :
    List (AliyunPageResp α) → ListLoopResult β
  | [] => .ok file_list
  | .raiseE msg :: _ => .errorResult msg
  | .page (some c) _ _ :: _ => .errorResult (aliyun_error_message c)
  | .page none items marker :: rest =>
    let file_list := file_list ++ items.map conv
    if marker = "" then .ok file_list
    else aliyun_get_detail_loop conv file_list rest

/-- One provider response consumed by the 115 offset loop: a raised request,
or the parsed body with the `state` flag, the `error` message and the page. -/
inductive C115PageResp (α : Type) where
  | raiseE (msg : String)
  | page (state : Bool) (err : String) (list : List α)
deriving DecidableEq, Repr

/-- The fixed page size of the 115 listing loops (`limit = 50`). -/
def c115_limit : Nat := 50

/-- Model of the `while True` offset loop of `Cloud115Adapter.get_detail`
(cloud115_adapter.py lines 193-221): a raised request becomes an error dict,
a falsy `state` becomes an error dict, an empty page breaks before appending,
and after appending the loop breaks when the page was shorter than the
limit. -/
def cloud115_get_detail_loop {α β : Type} (conv : α → β) (list_merge : List β) :
    List (C115PageResp α) → ListLoopResult β
  | [] => .ok list_merge
  | .raiseE msg :: _ => .errorResult ("获取分享详情失败: " ++ msg)
  | .page st err l :: rest =>
    if st = false then .errorResult err
    else if l.isEmpty then .ok list_merge
    else
      let list_merge := list_merge ++ l.map conv
      if l.length < c115_limit then .ok list_merge
      else cloud115_get_detail_loop conv list_merge rest

/-- A well-formed aliyun page script: every page parses without an error
code, every page before the last carries a non-empty next marker, and the
last page's marker is empty. -/
def aliyunWF {α : Type} : List (AliyunPageResp α) → Bool
  | [] => false
  | AliyunPageResp.page none _ m :: rest =>
    match rest with
    | [] => m == ""
    | _ :: _ => (m != "") && aliyunWF rest
  | _ => false

/-- A well-formed 115 page script: every page has a truthy `state`, every
page before the last is full (not shorter than the limit), and the last page
is short or empty. -/
def c115WF {α : Type} : List (C115PageResp α) → Bool
  | [] => false
  | C115PageResp.page true _ l :: rest =>
    match rest with
    | [] => decide (l.length < c115_limit)
    | _ :: _ => (!decide (l.length < c115_limit)) && c115WF rest
  | _ => false

/-- The concatenation, in order, of all page items of an aliyun script. -/
def aliyunPagesItems {α : Type} : List (AliyunPageResp α) → List α
  | [] => []
  | AliyunPageResp.page _ its _ :: rest => its ++ aliyunPagesItems rest
  | _ :: rest => aliyunPagesItems rest

/-- The concatenation, in order, of all page items of a 115 script. -/
def c115PagesItems {α : Type} : List (C115PageResp α) → List α
  | [] => []
  | C115PageResp.page _ _ l :: rest => l ++ c115PagesItems rest
  | _ :: rest => c115PagesItems rest

theorem aliyun_loop_wf_ok {α β : Type} (conv : α → β) :
    ∀ (script : List (AliyunPageResp α)), aliyunWF script = true →
    ∀ acc : List β,
      aliyun_get_detail_loop conv acc script
        = .ok (acc ++ (aliyunPagesItems script).map conv) := by
  intro script
  induction script with
  | nil => intro h; simp [aliyunWF] at h
  | cons p rest ih =>
    intro h acc
    cases p with
    | raiseE m => simp [aliyunWF] at h
    | page code its m =>
      cases code with
      | some c => simp [aliyunWF] at h
      | none =>
        cases rest with
        | nil =>
          have hm : m = "" := by simpa [aliyunWF] using h
          simp [aliyun_get_detail_loop, hm, aliyunPagesItems]
        | cons q rs =>
          simp only [aliyunWF, Bool.and_eq_true, bne_iff_ne, ne_eq] at h
          obtain ⟨hm, hwf⟩ := h
          have hstep : aliyun_get_detail_loop conv acc
              (AliyunPageResp.page none its m :: q :: rs)
              = aliyun_get_detail_loop conv (acc ++ its.map conv) (q :: rs) := by
            simp [aliyun_get_detail_loop, hm]
          rw [hstep, ih hwf]
          simp [aliyunPagesItems]

theorem c115_loop_wf_ok {α β : Type} (conv : α → β) :
    ∀ (script : List (C115PageResp α)), c115WF script = true →
    ∀ acc : List β,
      cloud115_get_detail_loop conv acc script
        = .ok (acc ++ (c115PagesItems script).map conv) := by
  intro script
  induction script with
  | nil => intro h; simp [c115WF] at h
  | cons p rest ih =>
    intro h acc
    cases p with
    | raiseE m => simp [c115WF] at h
    | page st e l =>
      cases st with
      | false => simp [c115WF] at h
      | true =>
        cases rest with
        | nil =>
          have hl : l.length < c115_limit := by simpa [c115WF] using h
          cases l with
          | nil => simp [cloud115_get_detail_loop, c115PagesItems]
          | cons x xs =>
            rw [cloud115_get_detail_loop]
            simp [hl, c115PagesItems]
            intro hc
            exact absurd (show (x :: xs).length < c115_limit by simpa using hl)
              (by simpa using hc)
        | cons q rs =>
          simp only [c115WF, Bool.and_eq_true, Bool.not_eq_true', decide_eq_false_iff_not] at h
          obtain ⟨hfull, hwf⟩ := h
          cases l with
          | nil => simp [c115_limit] at hfull
          | cons x xs =>
            have hstep : cloud115_get_detail_loop conv acc
                (C115PageResp.page true e (x :: xs) :: q :: rs)
                = cloud115_get_detail_loop conv (acc ++ (x :: xs).map conv) (q :: rs) := by
              simp [cloud115_get_detail_loop, hfull]
              intro hc
              exact absurd (show (x :: xs).length < c115_limit by simpa using hc) hfull
            rw [hstep, ih hwf]
            simp [c115PagesItems]

/-- C5 counterexample: the aliyun marker loop does not stop after an empty
page.  On a script whose first page is empty but carries a next marker, the
loop continues and returns the second page's items; the claim's stopping
rule (continue only while the page was non-empty) would have stopped after
the first page with an empty result. -/
theorem C5_pagination_counterexample :
    aliyun_get_detail_loop (fun n : Nat => n) []
        [.page none [] "marker1", .page none [10, 20, 30] ""]
      = .ok [10, 20, 30] ∧
    aliyun_get_detail_loop (fun n : Nat => n) []
        [.page none [] "marker1", .page none [10, 20, 30] ""]
      ≠ .ok [] := by
  constructor
  · rfl
  · decide

/-- C5 amended: both paginated listing loops terminate on a well-formed page
script and yield exactly the concatenation of the pages' converted items in
order.  The aliyun marker loop continues exactly while the next marker is
non-empty, regardless of page emptiness; the 115 offset loop continues
exactly while the page was full, stopping after a short or empty page.  A
3-page aliyun script of sizes (100, 100, 37) with page size 100 yields
exactly 237 items and the loop stops after the short page, whose marker is
empty. -/
theorem C5_pagination_amended {α β : Type} (conv : α → β)
    (sa : List (AliyunPageResp α)) (sc : List (C115PageResp α))
    (ha : aliyunWF sa = true) (hc : c115WF sc = true) :
    (aliyun_get_detail_loop conv [] sa = .ok ((aliyunPagesItems sa).map conv)) ∧
    (cloud115_get_detail_loop conv [] sc = .ok ((c115PagesItems sc).map conv)) ∧
    (∃ l : List Nat,
      aliyun_get_detail_loop (fun n : Nat => n) []
          [.page none (List.range 100) "m1", .page none (List.range 100) "m2",
           .page none (List.range 37) ""]
        = .ok l ∧ l.length = 237) := by
  refine ⟨?_, ?_, ?_⟩
  · simpa using aliyun_loop_wf_ok conv sa ha []
  · simpa using c115_loop_wf_ok conv sc hc []
  · refine ⟨List.range 100 ++ (List.range 100 ++ List.range 37), ?_, by simp⟩
    have hwf : aliyunWF
        [AliyunPageResp.page none (List.range 100) "m1",
         AliyunPageResp.page none (List.range 100) "m2",
         AliyunPageResp.page none (List.range 37) ""] = true := by
      simp [aliyunWF]
    have := aliyun_loop_wf_ok (fun n : Nat => n)
      [AliyunPageResp.page none (List.range 100) "m1",
       AliyunPageResp.page none (List.range 100) "m2",
       AliyunPageResp.page none (List.range 37) ""] hwf []
    simpa [aliyunPagesItems] using this

/-- C5 witness: the amended theorem applied to concrete two-page scripts for
both providers. -/
theorem C5_pagination_witness :
    aliyunWF [AliyunPageResp.page none [1, 2] "m",
              AliyunPageResp.page (α := Nat) none [3] ""] = true ∧
    c115WF [C115PageResp.page true "" (List.range 50),
            C115PageResp.page (α := Nat) true "" [7]] = true ∧
    ((aliyun_get_detail_loop (fun n : Nat => n) []
        [AliyunPageResp.page none [1, 2] "m", AliyunPageResp.page none [3] ""]
        = .ok [1, 2, 3]) ∧
     (cloud115_get_detail_loop (fun n : Nat => n) []
        [C115PageResp.page true "" (List.range 50), C115PageResp.page true "" [7]]
        = .ok (List.range 50 ++ [7])) ∧
     (∃ l : List Nat,
        aliyun_get_detail_loop (fun n : Nat => n) []
            [.page none (List.range 100) "m1", .page none (List.range 100) "m2",
             .page none (List.range 37) ""]
          = .ok l ∧ l.length = 237)) := by
  refine ⟨by decide, by decide, ?_⟩
  have := C5_pagination_amended (fun n : Nat => n)
    [AliyunPageResp.page none [1, 2] "m", AliyunPageResp.page none [3] ""]
    [C115PageResp.page true "" (List.range 50), C115PageResp.page true "" [7]]
    (by decide) (by decide)
  simpa [aliyunPagesItems, c115PagesItems] using this

/-! ## BFS share-tree resolvers (claims C3, C4, C7)

    Three adapters resolve a flat identifier to its place in a share tree by
    breadth-first search over the provider's listings:
    `AliyunAdapter._bfs_share_path` (aliyun_adapter.py lines 498-545) keeps a
    `visited` set and a FIFO deque and has no depth bound;
    `Cloud115Adapter._resolve_share_path` (cloud115_adapter.py lines 233-294)
    works level by level with `max_depth = 5` and no visited set;
    `BaiduAdapter._bfs_share_tree` (baidu_adapter.py lines 525-588) works
    level by level with `max_depth = 5` and no visited set.
    Each model also records the trace of container ids whose listing was
    requested, so revisiting is observable. -/

/-- One breadcrumb entry, the dict with keys "fid" and "file_name". -/
structure Crumb where
  fid : String
  file_name : String
deriving DecidableEq, Repr

/-- One item of an aliyun share listing: `file_id`, `name` and the `type`
field (`"folder"` marks a container). -/
structure AItem where
  file_id : String
  name : String
  typ : String
deriving DecidableEq, Repr

/-- The outcome of one aliyun `list_by_share` request inside the BFS: `err`
covers both a truthy error `code` in the parsed body and a raised request
(the source `continue`s in both cases); `ok` carries `data.get("items")`. -/
inductive AListing where
  | err
  | ok (items : List AItem)
deriving DecidableEq, Repr

/-- The items of an aliyun listing outcome (empty on error). -/
def AListing.items : AListing → List AItem
  | .err => []
  | .ok items => items

/-- Model of the `for item in items` body of `AliyunAdapter._bfs_share_path`:
the target check comes first and returns immediately; then a folder not yet
visited is marked visited and enqueued at the tail of the deque. -/
def aliyun_bfs_scan (target : String) (current_path : List Crumb) :
    List AItem → List String → List (String × List Crumb) →
    Option (List Crumb) × List String × List (String × List Crumb)
  | [], visited, queue => (none, visited, queue)
  | item :: rest, visited, queue =>
    if item.file_id = target then
      (some (current_path ++ [⟨item.file_id, item.name⟩]), visited, queue)
    else if item.typ = "folder" ∧ item.file_id ∉ visited then
      aliyun_bfs_scan target current_path rest (visited ++ [item.file_id])
        (queue ++ [(item.file_id, current_path ++ [⟨item.file_id, item.name⟩])])
    else
      aliyun_bfs_scan target current_path rest visited queue

/-- Model of the `while queue` loop of `AliyunAdapter._bfs_share_path`:
pop the leftmost entry, request its listing (recorded in the trace), continue
on error, otherwise scan the items.  The source loop runs until the deque
empties; the explicit fuel only bounds the embedding's recursion, and every
theorem below either holds for all fuel or supplies enough of it. -/
def aliyun_bfs_loop (listing : String → AListing) (target : String) :
    Nat → List (String × List Crumb) → List String → List String →
    List Crumb × List String
  | _, [], _, trace => ([], trace)
  | 0, _ :: _, _, trace => ([], trace)
  | fuel + 1, (cid, path) :: rest, visited, trace =>
    match listing cid with
    | .err => aliyun_bfs_loop listing target fuel rest visited (trace ++ [cid])
    | .ok items =>
      match aliyun_bfs_scan target path items visited rest with
      | (some res, _, _) => (res, trace ++ [cid])
      | (none, visited2, queue2) =>
        aliyun_bfs_loop listing target fuel queue2 visited2 (trace ++ [cid])

/-- Model of `AliyunAdapter._bfs_share_path`: the deque is seeded with
`("root", [])` and the visited set with `"root"`; returns the found
breadcrumb (or `[]`) together with the trace of listed container ids. -/
def bfs_share_path (listing : String → AListing) (target : String) (fuel : Nat) :
    List Crumb × List String :=
  aliyun_bfs_loop listing target fuel [("root", [])] ["root"] []

/-- One item of a 115 share snap listing: a dict is a folder exactly when it
has no "fid" key; `cid` is then its own id and `n` its name. -/
structure C115Item where
  has_fid : Bool
  cid : String
  n : String
deriving DecidableEq, Repr

/-- Model of the `for item in file_list` body of
`Cloud115Adapter._resolve_share_path`: files are skipped, for a folder the
extended path is built, the target check returns immediately, and otherwise
the folder is appended to `next_queue` — with no visited check. -/
def c115_resolve_scan (target : String) (current_path : List Crumb) :
    List C115Item → List (String × List Crumb) →
    Option (List Crumb) × List (String × List Crumb)
  | [], nq => (none, nq)
  | item :: rest, nq =>
    if item.has_fid then c115_resolve_scan target current_path rest nq
    else
      let new_path := current_path ++ [⟨item.cid, item.n⟩]
      if item.cid = target then (some new_path, nq)
      else c115_resolve_scan target current_path rest (nq ++ [(item.cid, new_path)])

/-- Model of the inner `while True` pagination of
`Cloud115Adapter._resolve_share_path` for one container: a raised request, a
falsy `state` or an empty page breaks; otherwise the page is scanned and the
loop continues only on a full page. -/
def c115_resolve_fetch (target : String) (current_path : List Crumb) :
    List (C115PageResp C115Item) → List (String × List Crumb) →
    Option (List Crumb) × List (String × List Crumb)
  | [], nq => (none, nq)
  | C115PageResp.raiseE _ :: _, nq => (none, nq)
  | C115PageResp.page st _ l :: rest, nq =>
    if st = false then (none, nq)
    else if l.isEmpty then (none, nq)
    else
      match c115_resolve_scan target current_path l nq with
      | (some r, nq2) => (some r, nq2)
      | (none, nq2) =>
        if l.length < c115_limit then (none, nq2)
        else c115_resolve_fetch target current_path rest nq2

/-- Model of one `for current_cid, current_path in queue` pass of
`Cloud115Adapter._resolve_share_path`, recording each requested cid. -/
def c115_resolve_level (pages : String → List (C115PageResp C115Item))
    (target : String) :
    List (String × List Crumb) → List (String × List Crumb) → List String →
    Option (List Crumb) × List (String × List Crumb) × List String
  | [], nq, trace => (none, nq, trace)
  | (cid, path) :: rest, nq, trace =>
    match c115_resolve_fetch target path (pages cid) nq with
    | (some r, nq2) => (some r, nq2, trace ++ [cid])
    | (none, nq2) => c115_resolve_level pages target rest nq2 (trace ++ [cid])

/-- Model of the `for _ in range(max_depth)` loop of
`Cloud115Adapter._resolve_share_path`: after each level, stop with the empty
result if the next queue is empty, and stop with the empty result when the
depth bound is exhausted. -/
def c115_resolve_loop (pages : String → List (C115PageResp C115Item))
    (target : String) :
    Nat → List (String × List Crumb) → List String → List Crumb × List String
  | 0, _, trace => ([], trace)
  | d + 1, queue, trace =>
    match c115_resolve_level pages target queue [] trace with
    | (some r, _, trace2) => (r, trace2)
    | (none, nq, trace2) =>
      if nq.isEmpty then ([], trace2)
      else c115_resolve_loop pages target d nq trace2

/-- Model of `Cloud115Adapter._resolve_share_path` with its default
`max_depth = 5`: the queue is seeded with the share root `("", [])`. -/
def resolve_share_path (pages : String → List (C115PageResp C115Item))
    (target : String) : List Crumb × List String :=
  c115_resolve_loop pages target 5 [("", [])] []

/-- One item of a baidu shared listing: `fs_id`, `server_filename`, the
`isdir` flag, and the path string `_get_item_path` computes for it. -/
structure BItem where
  fs_id : String
  server_filename : String
  isdir : Nat
  path : String
deriving DecidableEq, Repr

/-- The outcome of one `_api_list_shared_paths` call inside
`BaiduAdapter._bfs_share_tree`: a raised call is skipped (`continue`),
otherwise `info.get("list", [])` is scanned. -/
inductive BListing where
  | err
  | ok (items : List BItem)
deriving DecidableEq, Repr

/-- The items of a baidu listing outcome (empty on error). -/
def BListing.items : BListing → List BItem
  | .err => []
  | .ok items => items

/-- Model of the root-level pre-check of `BaiduAdapter._bfs_share_tree`
(lines 543-548): the first root entry whose `fs_id` matches the target is
returned with a one-element breadcrumb. -/
def baidu_root_find (target : String) : List BItem → Option (String × List Crumb)
  | [] => none
  | item :: rest =>
    if item.fs_id = target then
      some (item.path, [⟨item.fs_id, item.server_filename⟩])
    else baidu_root_find target rest

/-- Model of the queue seeding of `BaiduAdapter._bfs_share_tree`
(lines 551-557): every root-level directory starts a queue entry carrying
its path and its one-element breadcrumb. -/
def baidu_init_queue (file_list : List BItem) : List (String × List Crumb) :=
  (file_list.filter (fun it => it.isdir = 1)).map
    (fun it => (it.path, [⟨it.fs_id, it.server_filename⟩]))

/-- Model of the `for item in items` body of `BaiduAdapter._bfs_share_tree`:
the extended breadcrumb is built for every item, the target check returns
`(item_path, new_breadcrumb)` immediately, and a directory is appended to
`next_queue` — with no visited check. -/
def baidu_bfs_scan (target : String) (current_breadcrumb : List Crumb) :
    List BItem → List (String × List Crumb) →
    Option (String × List Crumb) × List (String × List Crumb)
  | [], nq => (none, nq)
  | item :: rest, nq =>
    let new_breadcrumb := current_breadcrumb ++ [⟨item.fs_id, item.server_filename⟩]
    if item.fs_id = target then (some (item.path, new_breadcrumb), nq)
    else if item.isdir = 1 then
      baidu_bfs_scan target current_breadcrumb rest
        (nq ++ [(item.path, new_breadcrumb)])
    else baidu_bfs_scan target current_breadcrumb rest nq

/-- Model of one queue pass of `BaiduAdapter._bfs_share_tree`: a raised
listing is skipped, otherwise the items are scanned into `next_queue`. -/
def baidu_bfs_level (listing : String → BListing) (target : String) :
    List (String × List Crumb) → List (String × List Crumb) →
    Option (String × List Crumb) × List (String × List Crumb)
  | [], nq => (none, nq)
  | (current_path, bc) :: rest, nq =>
    match listing current_path with
    | .err => baidu_bfs_level listing target rest nq
    | .ok items =>
      match baidu_bfs_scan target bc items nq with
      | (some r, nq2) => (some r, nq2)
      | (none, nq2) => baidu_bfs_level listing target rest nq2

/-- Model of the `for _ in range(max_depth)` loop of
`BaiduAdapter._bfs_share_tree`: not found yields `("", [])`. -/
def baidu_bfs_loop (listing : String → BListing) (target : String) :
    Nat → List (String × List Crumb) → String × List Crumb
  | 0, _ => ("", [])
  | d + 1, queue =>
    match baidu_bfs_level listing target queue [] with
    | (some r, _) => r
    | (none, nq) =>
      if nq.isEmpty then ("", []) else baidu_bfs_loop listing target d nq

/-- Model of `BaiduAdapter._bfs_share_tree` with its default
`max_depth = 5`. -/
def bfs_share_tree (file_list : List BItem) (listing : String → BListing)
    (target : String) : String × List Crumb :=
  match baidu_root_find target file_list with
  | some r => r
  | none => baidu_bfs_loop listing target 5 (baidu_init_queue file_list)

/-! ## Claim C3: revisiting of enqueued container ids -/

/-- C3 counterexample: the 115 resolver keeps no visited set.  When the share
root's listing returns the same directory id "A" twice, both copies are
enqueued and the next level requests the listing of "A" twice: the trace of
listed container ids is `["", "A", "A"]`, so a container id is listed again
after it was already enqueued. -/
theorem C3_bfs_revisit_counterexample :
    (resolve_share_path
        (fun cid => if cid = "" then
            [C115PageResp.page true "" [⟨false, "A", "a"⟩, ⟨false, "A", "a"⟩]]
          else [C115PageResp.page true "" []])
        "zzz").2 = ["", "A", "A"] ∧
    ¬ (["", "A", "A"] : List String).Nodup := by
  exact ⟨by decide, by decide⟩

theorem aliyun_scan_spec (target : String) (p : List Crumb) :
    ∀ (items : List AItem) (visited : List String)
      (queue : List (String × List Crumb)),
    ∃ e : List (String × List Crumb),
      (aliyun_bfs_scan target p items visited queue).2.2 = queue ++ e ∧
      (aliyun_bfs_scan target p items visited queue).2.1
        = visited ++ e.map Prod.fst ∧
      (e.map Prod.fst).Nodup ∧
      (∀ c ∈ e.map Prod.fst, c ∉ visited) := by
  intro items
  induction items with
  | nil => intro visited queue; exact ⟨[], by simp [aliyun_bfs_scan]⟩
  | cons item rest ih =>
    intro visited queue
    by_cases htgt : item.file_id = target
    · refine ⟨[], ?_⟩
      simp [aliyun_bfs_scan, htgt]
    · by_cases henq : item.typ = "folder" ∧ item.file_id ∉ visited
      · obtain ⟨e', he1, he2, he3, he4⟩ :=
          ih (visited ++ [item.file_id])
            (queue ++ [(item.file_id, p ++ [⟨item.file_id, item.name⟩])])
        refine ⟨(item.file_id, p ++ [⟨item.file_id, item.name⟩]) :: e', ?_, ?_, ?_, ?_⟩
        · rw [aliyun_bfs_scan]
          simp only [if_neg htgt, if_pos henq]
          rw [he1]
          simp
        · rw [aliyun_bfs_scan]
          simp only [if_neg htgt, if_pos henq]
          rw [he2]
          simp
        · simp only [List.map_cons, List.nodup_cons]
          refine ⟨?_, he3⟩
          intro hmem
          have := he4 _ hmem
          simp at this
        · intro c hc
          simp only [List.map_cons, List.mem_cons] at hc
          rcases hc with hc | hc
          · subst hc; exact henq.2
          · have := he4 _ hc
            intro hv
            exact this (by simp [hv])
      · obtain ⟨e', he1, he2, he3, he4⟩ := ih visited queue
        refine ⟨e', ?_, ?_, he3, he4⟩
        · rw [aliyun_bfs_scan]
          simp only [if_neg htgt, if_neg henq]
          exact he1
        · rw [aliyun_bfs_scan]
          simp only [if_neg htgt, if_neg henq]
          exact he2

theorem aliyun_bfs_trace_nodup (listing : String → AListing) (target : String) :
    ∀ (fuel : Nat) (queue : List (String × List Crumb)) (visited : List String)
      (trace : List String),
      (trace ++ queue.map Prod.fst).Nodup →
      (∀ c ∈ trace ++ queue.map Prod.fst, c ∈ visited) →
      ((aliyun_bfs_loop listing target fuel queue visited trace).2).Nodup := by
  intro fuel
  induction fuel with
  | zero =>
    intro queue visited trace hnd hmem
    cases queue with
    | nil =>
      rw [aliyun_bfs_loop]
      exact hnd.sublist (List.sublist_append_left _ _) |>.sublist (List.Sublist.refl _)
    | cons q qs =>
      rw [aliyun_bfs_loop]
      exact (List.nodup_append.mp hnd).1
  | succ fuel ih =>
    intro queue visited trace hnd hmem
    cases queue with
    | nil =>
      rw [aliyun_bfs_loop]
      exact (List.nodup_append.mp hnd).1
    | cons hd qs =>
      obtain ⟨cid, path⟩ := hd
      have hrearr : trace ++ (cid :: qs.map Prod.fst)
          = (trace ++ [cid]) ++ qs.map Prod.fst := by simp
      rw [aliyun_bfs_loop]
      cases hL : listing cid with
      | err =>
        apply ih qs visited (trace ++ [cid])
        · have := hnd
          simp only [List.map_cons] at this
          rw [hrearr] at this
          exact this
        · intro c hc
          apply hmem
          simp only [List.map_cons]
          rw [hrearr]
          exact hc
      | ok items =>
        obtain ⟨e, he1, he2, he3, he4⟩ := aliyun_scan_spec target path items visited qs
        cases hscan : aliyun_bfs_scan target path items visited qs with
        | mk r vq =>
          obtain ⟨visited2, queue2⟩ := vq
          rw [hscan] at he1 he2
          simp only at he1 he2
          cases r with
          | some res =>
            simp only [hscan]
            have := hnd
            simp only [List.map_cons] at this
            rw [hrearr] at this
            exact (List.nodup_append.mp this).1
          | none =>
            simp only [hscan]
            apply ih queue2 visited2 (trace ++ [cid])
            · subst he1
              have hold : ((trace ++ [cid]) ++ qs.map Prod.fst).Nodup := by
                have := hnd
                simp only [List.map_cons] at this
                rw [hrearr] at this
                exact this
              rw [List.map_append, ← List.append_assoc]
              apply hold.append he3
              intro c hc1 hc2
              have hcv : c ∈ visited := by
                apply hmem
                simp only [List.map_cons]
                rw [hrearr]
                exact hc1
              exact he4 c hc2 hcv
            · intro c hc
              subst he1 he2
              rw [List.map_append, ← List.append_assoc] at hc
              rcases List.mem_append.mp hc with hc | hc
              · exact List.mem_append.mpr (Or.inl (by
                  apply hmem
                  simp only [List.map_cons]
                  rw [hrearr]
                  exact hc))
              · exact List.mem_append.mpr (Or.inr hc)

/-- C3 amended: only the aliyun BFS resolver maintains a visited set; it
never requests the listing of a container id it has already enqueued, so
each container id is listed at most once per resolution and the traversal
cannot loop on pathological provider data.  The 115 and baidu resolvers keep
no visited set and can list a duplicated container id twice (see the
counterexample); only their hard depth bound of 5 levels prevents unbounded
looping there. -/
theorem C3_aliyun_no_revisit_amended (listing : String → AListing)
    (target : String) (fuel : Nat) :
    ((bfs_share_path listing target fuel).2).Nodup := by
  apply aliyun_bfs_trace_nodup listing target fuel [("root", [])] ["root"] []
  · simp
  · intro c hc
    simp at hc
    simp [hc]

/-! ## Claim C4: stopping conditions and the not-found result -/

/-- A linear chain of depth 11 in the aliyun share tree: the root contains
folder d1, each folder d(k) contains folder d(k+1) up to d10, and d10
contains the target file t11 at depth 11. -/
def aliyunChain11 : String → AListing := fun cid =>
  if cid = "root" then .ok [⟨"d1", "n1", "folder"⟩]
  else if cid = "d1" then .ok [⟨"d2", "n2", "folder"⟩]
  else if cid = "d2" then .ok [⟨"d3", "n3", "folder"⟩]
  else if cid = "d3" then .ok [⟨"d4", "n4", "folder"⟩]
  else if cid = "d4" then .ok [⟨"d5", "n5", "folder"⟩]
  else if cid = "d5" then .ok [⟨"d6", "n6", "folder"⟩]
  else if cid = "d6" then .ok [⟨"d7", "n7", "folder"⟩]
  else if cid = "d7" then .ok [⟨"d8", "n8", "folder"⟩]
  else if cid = "d8" then .ok [⟨"d9", "n9", "folder"⟩]
  else if cid = "d9" then .ok [⟨"d10", "n10", "folder"⟩]
  else if cid = "d10" then .ok [⟨"t11", "tn", "file"⟩]
  else .ok []

/-- C4 counterexample: the aliyun BFS resolver has no hard depth bound.  On a
linear chain it finds a target at depth 11 — deeper than any 5-to-10-level
bound — and returns its full 11-element breadcrumb instead of the empty
"not found" result the claimed bound would force. -/
theorem C4_depth_bound_counterexample :
    (bfs_share_path aliyunChain11 "t11" 20).1.length = 11 ∧
    (bfs_share_path aliyunChain11 "t11" 20).1 ≠ [] := by
  exact ⟨by decide, by decide⟩

theorem aliyun_scan_absent (target : String) (p : List Crumb) :
    ∀ (items : List AItem) (visited : List String)
      (queue : List (String × List Crumb)),
      (∀ it ∈ items, it.file_id ≠ target) →
      (aliyun_bfs_scan target p items visited queue).1 = none := by
  intro items
  induction items with
  | nil => intro visited queue _; simp [aliyun_bfs_scan]
  | cons item rest ih =>
    intro visited queue habs
    have hne : item.file_id ≠ target := habs item (by simp)
    have hrest : ∀ it ∈ rest, it.file_id ≠ target := fun it hit =>
      habs it (by simp [hit])
    rw [aliyun_bfs_scan]
    simp only [if_neg hne]
    by_cases henq : item.typ = "folder" ∧ item.file_id ∉ visited
    · simp only [if_pos henq]
      exact ih _ _ hrest
    · simp only [if_neg henq]
      exact ih _ _ hrest

theorem aliyun_bfs_absent (listing : String → AListing) (target : String)
    (habs : ∀ cid : String, ∀ it ∈ (listing cid).items, it.file_id ≠ target) :
    ∀ (fuel : Nat) (queue : List (String × List Crumb))
      (visited trace : List String),
      (aliyun_bfs_loop listing target fuel queue visited trace).1 = [] := by
  intro fuel
  induction fuel with
  | zero =>
    intro queue visited trace
    cases queue with
    | nil => rw [aliyun_bfs_loop]
    | cons q qs => rw [aliyun_bfs_loop]
  | succ fuel ih =>
    intro queue visited trace
    cases queue with
    | nil => rw [aliyun_bfs_loop]
    | cons hd qs =>
      obtain ⟨cid, path⟩ := hd
      rw [aliyun_bfs_loop]
      cases hL : listing cid with
      | err => exact ih qs visited (trace ++ [cid])
      | ok items =>
        have habs2 : ∀ it ∈ items, it.file_id ≠ target := by
          intro it hit
          have := habs cid
          rw [hL] at this
          exact this it hit
        have hnone := aliyun_scan_absent target path items visited qs habs2
        cases hscan : aliyun_bfs_scan target path items visited qs with
        | mk r vq =>
          rw [hscan] at hnone
          simp only at hnone
          subst hnone
          obtain ⟨visited2, queue2⟩ := vq
          simp only [hscan]
          exact ih queue2 visited2 (trace ++ [cid])

/-- The items carried by one 115 page response (empty on a raised request). -/
def c115RespItems {α : Type} : C115PageResp α → List α
  | .raiseE _ => []
  | .page _ _ l => l

/-- The target container id never occurs as a directory id in any page the
115 share endpoint would serve. -/
def C115Absent (pages : String → List (C115PageResp C115Item))
    (target : String) : Prop :=
  ∀ cid : String, ∀ resp ∈ pages cid, ∀ it ∈ c115RespItems resp,
    it.has_fid = true ∨ it.cid ≠ target

theorem c115_scan_absent (target : String) (p : List Crumb) :
    ∀ (items : List C115Item) (nq : List (String × List Crumb)),
      (∀ it ∈ items, it.has_fid = true ∨ it.cid ≠ target) →
      (c115_resolve_scan target p items nq).1 = none := by
  intro items
  induction items with
  | nil => intro nq _; simp [c115_resolve_scan]
  | cons item rest ih =>
    intro nq habs
    have hrest : ∀ it ∈ rest, it.has_fid = true ∨ it.cid ≠ target := fun it hit =>
      habs it (by simp [hit])
    rw [c115_resolve_scan]
    rcases habs item (by simp) with hf | hc
    · simp only [hf, if_pos rfl]
      exact ih _ hrest
    · by_cases hf : item.has_fid
      · simp only [hf, if_pos rfl]
        exact ih _ hrest
      · have hfb : item.has_fid = false := by
          cases h : item.has_fid
          · rfl
          · exact absurd h hf
        simp only [hfb, Bool.false_eq_true, if_false, if_neg hc]
        exact ih _ hrest

theorem c115_fetch_absent (target : String) (p : List Crumb) :
    ∀ (script : List (C115PageResp C115Item)) (nq : List (String × List Crumb)),
      (∀ resp ∈ script, ∀ it ∈ c115RespItems resp,
        it.has_fid = true ∨ it.cid ≠ target) →
      (c115_resolve_fetch target p script nq).1 = none := by
  intro script
  induction script with
  | nil => intro nq _; simp [c115_resolve_fetch]
  | cons resp rest ih =>
    intro nq habs
    have hrest : ∀ r ∈ rest, ∀ it ∈ c115RespItems r,
        it.has_fid = true ∨ it.cid ≠ target := fun r hr =>
      habs r (by simp [hr])
    cases resp with
    | raiseE m => rw [c115_resolve_fetch]
    | page st e l =>
      have hitems : ∀ it ∈ l, it.has_fid = true ∨ it.cid ≠ target := by
        intro it hit
        exact habs (C115PageResp.page st e l) (by simp) it (by simp [c115RespItems, hit])
      rw [c115_resolve_fetch]
      by_cases hst : st = false
      · simp [hst]
      · simp only [if_neg hst]
        by_cases hemp : l.isEmpty
        · simp [hemp]
        · simp only [hemp, Bool.false_eq_true, if_false]
          have hnone := c115_scan_absent target p l nq hitems
          cases hscan : c115_resolve_scan target p l nq with
          | mk r nq2 =>
            rw [hscan] at hnone
            simp only at hnone
            subst hnone
            simp only [hscan]
            by_cases hlen : l.length < c115_limit
            · simp [hlen]
            · simp only [if_neg hlen]
              exact ih nq2 hrest

theorem c115_level_absent (pages : String → List (C115PageResp C115Item))
    (target : String) (habs : C115Absent pages target) :
    ∀ (q nq : List (String × List Crumb)) (trace : List String),
      (c115_resolve_level pages target q nq trace).1 = none := by
  intro q
  induction q with
  | nil => intro nq trace; rw [c115_resolve_level]
  | cons hd rest ih =>
    intro nq trace
    obtain ⟨cid, path⟩ := hd
    rw [c115_resolve_level]
    have hnone := c115_fetch_absent target path (pages cid) nq (habs cid)
    cases hfetch : c115_resolve_fetch target path (pages cid) nq with
    | mk r nq2 =>
      rw [hfetch] at hnone
      simp only at hnone
      subst hnone
      simp only [hfetch]
      exact ih nq2 (trace ++ [cid])

theorem c115_loop_absent (pages : String → List (C115PageResp C115Item))
    (target : String) (habs : C115Absent pages target) :
    ∀ (d : Nat) (queue : List (String × List Crumb)) (trace : List String),
      (c115_resolve_loop pages target d queue trace).1 = [] := by
  intro d
  induction d with
  | zero => intro queue trace; rw [c115_resolve_loop]
  | succ d ih =>
    intro queue trace
    rw [c115_resolve_loop]
    have hnone := c115_level_absent pages target habs queue [] trace
    cases hlev : c115_resolve_level pages target queue [] trace with
    | mk r rest =>
      rw [hlev] at hnone
      simp only at hnone
      subst hnone
      obtain ⟨nq, trace2⟩ := rest
      simp only [hlev]
      by_cases hq : nq.isEmpty
      · simp [hq]
      · simp only [hq, Bool.false_eq_true, if_false]
        exact ih nq trace2

/-- A linear 115 chain: the share root contains directory a1, each a(k)
contains a(k+1) up to a5, and a5 contains the directory t6 at depth 6 —
one level beyond the resolver's depth bound. -/
def c115Chain6 : String → List (C115PageResp C115Item) := fun cid =>
  if cid = "" then [C115PageResp.page true "" [⟨false, "a1", "a1"⟩]]
  else if cid = "a1" then [C115PageResp.page true "" [⟨false, "a2", "a2"⟩]]
  else if cid = "a2" then [C115PageResp.page true "" [⟨false, "a3", "a3"⟩]]
  else if cid = "a3" then [C115PageResp.page true "" [⟨false, "a4", "a4"⟩]]
  else if cid = "a4" then [C115PageResp.page true "" [⟨false, "a5", "a5"⟩]]
  else if cid = "a5" then [C115PageResp.page true "" [⟨false, "t6", "t6"⟩]]
  else [C115PageResp.page true "" []]

/-- C4 amended: the 115 resolver stops when its queue empties or when its
hard depth bound of 5 levels is exhausted, and a target that is nowhere in
the provider's listings yields the empty not-found breadcrumb, never an
error result (the resolver's return type carries no error alternative and
request failures are swallowed by `continue`/`break`); a target placed at
depth 6, one level past the bound, likewise yields the empty result.  The
aliyun resolver has no depth bound — it stops only when its visited-guarded
queue empties — and an absent target yields the empty result there for every
fuel. -/
theorem C4_not_found_amended (listing : String → AListing)
    (pages : String → List (C115PageResp C115Item)) (targetA targetC : String)
    (h1 : ∀ cid : String, ∀ it ∈ (listing cid).items, it.file_id ≠ targetA)
    (h2 : C115Absent pages targetC) :
    (∀ fuel : Nat, (bfs_share_path listing targetA fuel).1 = []) ∧
    (resolve_share_path pages targetC).1 = [] ∧
    (resolve_share_path c115Chain6 "t6").1 = [] := by
  refine ⟨?_, ?_, by decide⟩
  · intro fuel
    exact aliyun_bfs_absent listing targetA h1 fuel [("root", [])] ["root"] []
  · exact c115_loop_absent pages targetC h2 5 [("", [])] []

/-- C4 witness: the amended theorem applied to a provider whose every
listing is empty, for both resolvers. -/
theorem C4_not_found_witness :
    (∀ cid : String, ∀ it ∈ ((fun _ => AListing.ok []) cid : AListing).items,
      it.file_id ≠ "x") ∧
    C115Absent (fun _ => []) "y" ∧
    ((∀ fuel : Nat, (bfs_share_path (fun _ => AListing.ok []) "x" fuel).1 = []) ∧
     (resolve_share_path (fun _ => []) "y").1 = [] ∧
     (resolve_share_path c115Chain6 "t6").1 = []) := by
  refine ⟨?_, ?_, ?_⟩
  · intro cid it hit
    simp [AListing.items] at hit
  · intro cid resp hresp
    simp at hresp
  · exact C4_not_found_amended (fun _ => AListing.ok []) (fun _ => []) "x" "y"
      (by intro cid it hit; simp [AListing.items] at hit)
      (by intro cid resp hresp; simp at hresp)

/-! ## Claim C7: BFS returns the shallowest breadcrumb, root-to-target -/

theorem aliyun_scan_finds (target : String) (p : List Crumb) :
    ∀ (pre : List AItem) (x : AItem) (post : List AItem)
      (visited : List String) (queue : List (String × List Crumb)),
      (∀ it ∈ pre, it.file_id ≠ target) → x.file_id = target →
      (aliyun_bfs_scan target p (pre ++ x :: post) visited queue).1
        = some (p ++ [⟨x.file_id, x.name⟩]) := by
  intro pre
  induction pre with
  | nil =>
    intro x post visited queue _ hx
    rw [List.nil_append, aliyun_bfs_scan]
    simp [hx]
  | cons a pre ih =>
    intro x post visited queue hpre hx
    have hane : a.file_id ≠ target := hpre a (by simp)
    have hpre2 : ∀ it ∈ pre, it.file_id ≠ target := fun it hit =>
      hpre it (by simp [hit])
    rw [List.cons_append, aliyun_bfs_scan]
    simp only [if_neg hane]
    by_cases henq : a.typ = "folder" ∧ a.file_id ∉ visited
    · simp only [if_pos henq]
      exact ih x post _ _ hpre2 hx
    · simp only [if_neg henq]
      exact ih x post _ _ hpre2 hx

theorem aliyun_scan_decomp (target : String) (p : List Crumb) (b : AItem)
    (hbf : b.typ = "folder") :
    ∀ (A B : List AItem) (visited : List String)
      (queue : List (String × List Crumb)),
      (∀ it ∈ A, it.file_id ≠ target) → b.file_id ≠ target →
      (∀ it ∈ B, it.file_id ≠ target) →
      b.file_id ∉ visited → (∀ it ∈ A, it.file_id ≠ b.file_id) →
      ∃ eA eB : List (String × List Crumb),
        (aliyun_bfs_scan target p (A ++ b :: B) visited queue).2.2
          = queue ++ eA ++ (b.file_id, p ++ [⟨b.file_id, b.name⟩]) :: eB ∧
        (aliyun_bfs_scan target p (A ++ b :: B) visited queue).1 = none ∧
        eA.length ≤ A.length ∧
        (∀ z ∈ eA, ∃ it ∈ A, it.typ = "folder" ∧ z.1 = it.file_id) := by
  intro A
  induction A with
  | nil =>
    intro B visited queue _ hbne hBne hbv _
    have hcond : b.typ = "folder" ∧ b.file_id ∉ visited := ⟨hbf, hbv⟩
    rw [List.nil_append, aliyun_bfs_scan]
    simp only [if_neg hbne, if_pos hcond]
    obtain ⟨e, he1, he2, he3, he4⟩ := aliyun_scan_spec target p B
      (visited ++ [b.file_id])
      (queue ++ [(b.file_id, p ++ [⟨b.file_id, b.name⟩])])
    refine ⟨[], e, ?_, ?_, by simp, by simp⟩
    · rw [he1]; simp
    · exact aliyun_scan_absent target p B _ _ hBne
  | cons a A ih =>
    intro B visited queue hAne hbne hBne hbv hAb
    have hane : a.file_id ≠ target := hAne a (by simp)
    have hAne2 : ∀ it ∈ A, it.file_id ≠ target := fun it hit => hAne it (by simp [hit])
    have hAb2 : ∀ it ∈ A, it.file_id ≠ b.file_id := fun it hit => hAb it (by simp [hit])
    rw [List.cons_append, aliyun_bfs_scan]
    simp only [if_neg hane]
    by_cases henq : a.typ = "folder" ∧ a.file_id ∉ visited
    · simp only [if_pos henq]
      have hbv2 : b.file_id ∉ visited ++ [a.file_id] := by
        intro hmem
        rcases List.mem_append.mp hmem with h | h
        · exact hbv h
        · simp at h
          exact hAb a (by simp) h.symm
      obtain ⟨eA, eB, h1, h2, h3, h4⟩ := ih B (visited ++ [a.file_id])
        (queue ++ [(a.file_id, p ++ [⟨a.file_id, a.name⟩])])
        hAne2 hbne hBne hbv2 hAb2
      refine ⟨(a.file_id, p ++ [⟨a.file_id, a.name⟩]) :: eA, eB, ?_, h2, ?_, ?_⟩
      · rw [h1]; simp
      · simpa using Nat.succ_le_succ h3
      · intro z hz
        rcases List.mem_cons.mp hz with hz | hz
        · exact ⟨a, by simp, henq.1, by rw [hz]⟩
        · obtain ⟨it, hit, hf, hid⟩ := h4 z hz
          exact ⟨it, by simp [hit], hf, hid⟩
    · simp only [if_neg henq]
      obtain ⟨eA, eB, h1, h2, h3, h4⟩ := ih B visited queue hAne2 hbne hBne hbv hAb2
      refine ⟨eA, eB, h1, h2, by simp only [List.length_cons]; omega, ?_⟩
      intro z hz
      obtain ⟨it, hit, hf, hid⟩ := h4 z hz
      exact ⟨it, by simp [hit], hf, hid⟩

theorem aliyun_loop_finds (listing : String → AListing) (target : String)
    (bid : String) (pb res : List Crumb)
    (hfind : ∀ (visited : List String) (queue : List (String × List Crumb)),
      (aliyun_bfs_scan target pb (listing bid).items visited queue).1 = some res) :
    ∀ (q1 : List (String × List Crumb)) (fuel : Nat)
      (qtail : List (String × List Crumb)) (visited trace : List String),
      (∀ z ∈ q1, ∀ it ∈ (listing z.1).items, it.file_id ≠ target) →
      q1.length < fuel →
      (aliyun_bfs_loop listing target fuel
        (q1 ++ (bid, pb) :: qtail) visited trace).1 = res := by
  intro q1
  induction q1 with
  | nil =>
    intro fuel qtail visited trace _ hfuel
    cases fuel with
    | zero => omega
    | succ f =>
      rw [List.nil_append, aliyun_bfs_loop]
      cases hL : listing bid with
      | err =>
        exfalso
        have := hfind visited qtail
        rw [hL] at this
        simp [AListing.items, aliyun_bfs_scan] at this
      | ok items =>
        have hsc := hfind visited qtail
        rw [hL] at hsc
        simp only [AListing.items] at hsc
        cases hscan : aliyun_bfs_scan target pb items visited qtail with
        | mk r vq =>
          rw [hscan] at hsc
          simp only at hsc
          subst hsc
          simp [hscan]
  | cons hd q1 ih =>
    intro fuel qtail visited trace hsafe hfuel
    obtain ⟨c, pp⟩ := hd
    cases fuel with
    | zero => simp at hfuel
    | succ f =>
      have hsafe2 : ∀ z ∈ q1, ∀ it ∈ (listing z.1).items, it.file_id ≠ target :=
        fun z hz => hsafe z (by simp [hz])
      have hfuel2 : q1.length < f := by simpa using hfuel
      rw [List.cons_append, aliyun_bfs_loop]
      cases hL : listing c with
      | err => exact ih f qtail visited (trace ++ [c]) hsafe2 hfuel2
      | ok items =>
        have hcne : ∀ it ∈ items, it.file_id ≠ target := by
          have := hsafe (c, pp) (by simp)
          rw [hL] at this
          simpa [AListing.items] using this
        have hnone := aliyun_scan_absent target pp items visited
          (q1 ++ (bid, pb) :: qtail) hcne
        obtain ⟨e, he1, he2, _, _⟩ := aliyun_scan_spec target pp items visited
          (q1 ++ (bid, pb) :: qtail)
        cases hscan : aliyun_bfs_scan target pp items visited
            (q1 ++ (bid, pb) :: qtail) with
        | mk r vq =>
          rw [hscan] at hnone he1 he2
          simp only at hnone he1 he2
          subst hnone
          obtain ⟨visited2, queue2⟩ := vq
          simp only at he1 he2
          simp only [hscan]
          have hq2 : queue2 = q1 ++ (bid, pb) :: (qtail ++ e) := by
            rw [he1]; simp
          rw [hq2]
          exact ih f (qtail ++ e) visited2 (trace ++ [c]) hsafe2 hfuel2

theorem baidu_root_find_none (target : String) :
    ∀ items : List BItem, (∀ it ∈ items, it.fs_id ≠ target) →
      baidu_root_find target items = none := by
  intro items
  induction items with
  | nil => intro _; rfl
  | cons it rest ih =>
    intro h
    rw [baidu_root_find]
    simp only [if_neg (h it (by simp))]
    exact ih (fun z hz => h z (by simp [hz]))

theorem baidu_scan_absent (target : String) (bc : List Crumb) :
    ∀ (items : List BItem) (nq : List (String × List Crumb)),
      (∀ it ∈ items, it.fs_id ≠ target) →
      (baidu_bfs_scan target bc items nq).1 = none := by
  intro items
  induction items with
  | nil => intro nq _; simp [baidu_bfs_scan]
  | cons item rest ih =>
    intro nq h
    have hne : item.fs_id ≠ target := h item (by simp)
    have hrest : ∀ z ∈ rest, z.fs_id ≠ target := fun z hz => h z (by simp [hz])
    rw [baidu_bfs_scan]
    simp only [if_neg hne]
    by_cases hdir : item.isdir = 1
    · simp only [if_pos hdir]
      exact ih _ hrest
    · simp only [if_neg hdir]
      exact ih _ hrest

theorem baidu_scan_finds (target : String) (bc : List Crumb) :
    ∀ (pre : List BItem) (x : BItem) (post : List BItem)
      (nq : List (String × List Crumb)),
      (∀ it ∈ pre, it.fs_id ≠ target) → x.fs_id = target →
      (baidu_bfs_scan target bc (pre ++ x :: post) nq).1
        = some (x.path, bc ++ [⟨x.fs_id, x.server_filename⟩]) := by
  intro pre
  induction pre with
  | nil =>
    intro x post nq _ hx
    rw [List.nil_append, baidu_bfs_scan]
    simp [hx]
  | cons a pre ih =>
    intro x post nq hpre hx
    have hane : a.fs_id ≠ target := hpre a (by simp)
    have hpre2 : ∀ it ∈ pre, it.fs_id ≠ target := fun it hit => hpre it (by simp [hit])
    rw [List.cons_append, baidu_bfs_scan]
    simp only [if_neg hane]
    by_cases hdir : a.isdir = 1
    · simp only [if_pos hdir]
      exact ih x post _ hpre2 hx
    · simp only [if_neg hdir]
      exact ih x post _ hpre2 hx

theorem baidu_level_finds (listing : String → BListing) (target : String)
    (bpath : String) (bc : List Crumb) (r : String × List Crumb)
    (hfind : ∀ nq : List (String × List Crumb),
      (baidu_bfs_scan target bc (listing bpath).items nq).1 = some r) :
    ∀ (q1 qtail nq : List (String × List Crumb)),
      (∀ z ∈ q1, ∀ it ∈ (listing z.1).items, it.fs_id ≠ target) →
      (baidu_bfs_level listing target (q1 ++ (bpath, bc) :: qtail) nq).1 = some r := by
  intro q1
  induction q1 with
  | nil =>
    intro qtail nq _
    rw [List.nil_append, baidu_bfs_level]
    cases hL : listing bpath with
    | err =>
      exfalso
      have := hfind nq
      rw [hL] at this
      simp [BListing.items, baidu_bfs_scan] at this
    | ok items =>
      have hsc := hfind nq
      rw [hL] at hsc
      simp only [BListing.items] at hsc
      cases hscan : baidu_bfs_scan target bc items nq with
      | mk rr nq2 =>
        rw [hscan] at hsc
        simp only at hsc
        subst hsc
        simp [hscan]
  | cons hd q1 ih =>
    intro qtail nq hsafe
    obtain ⟨c, pp⟩ := hd
    have hsafe2 : ∀ z ∈ q1, ∀ it ∈ (listing z.1).items, it.fs_id ≠ target :=
      fun z hz => hsafe z (by simp [hz])
    rw [List.cons_append, baidu_bfs_level]
    cases hL : listing c with
    | err => exact ih qtail nq hsafe2
    | ok items =>
      have hcne : ∀ it ∈ items, it.fs_id ≠ target := by
        have := hsafe (c, pp) (by simp)
        rw [hL] at this
        simpa [BListing.items] using this
      have hnone := baidu_scan_absent target pp items nq hcne
      cases hscan : baidu_bfs_scan target pp items nq with
      | mk rr nq2 =>
        rw [hscan] at hnone
        simp only at hnone
        subst hnone
        simp only [hscan]
        exact ih qtail nq2 hsafe2

/-- C7: for a tree with no duplicate placement containing the target, the
BFS resolver returns, immediately upon first encountering the target, the
breadcrumb accumulated so far extended by the target itself, and the FIFO
level-by-level traversal makes this the shortest breadcrumb: for a target at
depth 2 (inside folder `b`, itself a child of the share root) of an
arbitrary 3-level tree, both the aliyun and the baidu resolvers return the
two-element breadcrumb `[ancestor, target]` in root-to-target order.  The
hypotheses say exactly that: the root level is `A ++ b :: B` with the target
nowhere at depth 1, the earlier siblings `A` do not contain the target in
their own listings (no duplicate placement left of `b`), `b`'s listing
contains the target with any prefix `pre` not matching it, and (aliyun) the
folder ids seen before `b` do not collide with `b`'s id. -/
theorem C7_bfs_shortest_breadcrumb
    (listing : String → AListing) (tA : String)
    (A B preA postA : List AItem) (b xA : AItem) (fuel : Nat)
    (hL1 : listing "root" = .ok (A ++ b :: B))
    (hbf : b.typ = "folder")
    (hL1ne : ∀ it ∈ A ++ b :: B, it.file_id ≠ tA)
    (hbroot : b.file_id ≠ "root")
    (hbA : ∀ it ∈ A, it.file_id ≠ b.file_id)
    (hsafeA : ∀ it ∈ A, it.typ = "folder" →
      ∀ it2 ∈ (listing it.file_id).items, it2.file_id ≠ tA)
    (hLb : listing b.file_id = .ok (preA ++ xA :: postA))
    (hpreA : ∀ it ∈ preA, it.file_id ≠ tA)
    (hxA : xA.file_id = tA)
    (hfuel : A.length + 2 ≤ fuel)
    (blisting : String → BListing) (tB : String)
    (FA FB preB postB : List BItem) (bb xB : BItem)
    (hroot : ∀ it ∈ FA ++ bb :: FB, it.fs_id ≠ tB)
    (hbdir : bb.isdir = 1)
    (hsafeB : ∀ it ∈ FA, it.isdir = 1 →
      ∀ it2 ∈ (blisting it.path).items, it2.fs_id ≠ tB)
    (hLbb : blisting bb.path = .ok (preB ++ xB :: postB))
    (hpreB : ∀ it ∈ preB, it.fs_id ≠ tB)
    (hxB : xB.fs_id = tB) :
    (bfs_share_path listing tA fuel).1
      = [⟨b.file_id, b.name⟩, ⟨xA.file_id, xA.name⟩] ∧
    (bfs_share_tree (FA ++ bb :: FB) blisting tB).2
      = [⟨bb.fs_id, bb.server_filename⟩, ⟨xB.fs_id, xB.server_filename⟩] ∧
    (bfs_share_path listing tA fuel).1.length = 2 := by
  have hal : (bfs_share_path listing tA fuel).1
      = [⟨b.file_id, b.name⟩, ⟨xA.file_id, xA.name⟩] := by
    obtain ⟨f, rfl⟩ : ∃ f, fuel = f + 1 := ⟨fuel - 1, by omega⟩
    unfold bfs_share_path
    rw [aliyun_bfs_loop, hL1]
    have hAne : ∀ it ∈ A, it.file_id ≠ tA := fun it hit =>
      hL1ne it (List.mem_append_left _ hit)
    have hbne : b.file_id ≠ tA := hL1ne b (by simp)
    have hBne : ∀ it ∈ B, it.file_id ≠ tA := fun it hit =>
      hL1ne it (List.mem_append_right _ (by simp [hit]))
    have hbv : b.file_id ∉ ["root"] := by simp [hbroot]
    obtain ⟨eA, eB, h1, h2, h3, h4⟩ :=
      aliyun_scan_decomp tA [] b hbf A B ["root"] [] hAne hbne hBne hbv hbA
    cases hscan : aliyun_bfs_scan tA [] (A ++ b :: B) ["root"] [] with
    | mk r vq =>
      rw [hscan] at h1 h2
      simp only at h1 h2
      subst h2
      obtain ⟨visited2, queue2⟩ := vq
      simp only at h1
      simp only [hscan]
      have hq : queue2 = eA ++ (b.file_id, [⟨b.file_id, b.name⟩]) :: eB := by
        rw [h1]; simp
      rw [hq]
      have hfind : ∀ (visited : List String) (queue : List (String × List Crumb)),
          (aliyun_bfs_scan tA [⟨b.file_id, b.name⟩] (listing b.file_id).items
            visited queue).1
            = some [⟨b.file_id, b.name⟩, ⟨xA.file_id, xA.name⟩] := by
        intro v q
        rw [hLb]
        simp only [AListing.items]
        have := aliyun_scan_finds tA [⟨b.file_id, b.name⟩] preA xA postA v q hpreA hxA
        simpa using this
      apply aliyun_loop_finds listing tA b.file_id [⟨b.file_id, b.name⟩]
        [⟨b.file_id, b.name⟩, ⟨xA.file_id, xA.name⟩] hfind eA f eB visited2 _
      · intro z hz it2 hit2
        obtain ⟨it, hit, hf, hid⟩ := h4 z hz
        rw [hid] at hit2
        exact hsafeA it hit hf it2 hit2
      · omega
  have hba : (bfs_share_tree (FA ++ bb :: FB) blisting tB).2
      = [⟨bb.fs_id, bb.server_filename⟩, ⟨xB.fs_id, xB.server_filename⟩] := by
    unfold bfs_share_tree
    rw [baidu_root_find_none tB _ hroot]
    have hinit : baidu_init_queue (FA ++ bb :: FB)
        = baidu_init_queue FA
          ++ (bb.path, [⟨bb.fs_id, bb.server_filename⟩]) :: baidu_init_queue FB := by
      simp [baidu_init_queue, List.filter_append, List.filter_cons, hbdir]
    have hfind : ∀ nq : List (String × List Crumb),
        (baidu_bfs_scan tB [⟨bb.fs_id, bb.server_filename⟩]
          (blisting bb.path).items nq).1
          = some (xB.path, [⟨bb.fs_id, bb.server_filename⟩,
              ⟨xB.fs_id, xB.server_filename⟩]) := by
      intro nq
      rw [hLbb]
      simp only [BListing.items]
      have := baidu_scan_finds tB [⟨bb.fs_id, bb.server_filename⟩] preB xB postB
        nq hpreB hxB
      simpa using this
    have hsafe : ∀ z ∈ baidu_init_queue FA,
        ∀ it ∈ (blisting z.1).items, it.fs_id ≠ tB := by
      intro z hz
      simp only [baidu_init_queue, List.mem_map, List.mem_filter] at hz
      obtain ⟨it, ⟨hitmem, hdir⟩, hzeq⟩ := hz
      rw [← hzeq]
      exact hsafeB it hitmem (by simpa using hdir)
    have hlev := baidu_level_finds blisting tB bb.path
      [⟨bb.fs_id, bb.server_filename⟩]
      (xB.path, [⟨bb.fs_id, bb.server_filename⟩, ⟨xB.fs_id, xB.server_filename⟩])
      hfind (baidu_init_queue FA) (baidu_init_queue FB) [] hsafe
    rw [hinit, show (5 : Nat) = 4 + 1 from rfl, baidu_bfs_loop]
    cases hlv : baidu_bfs_level blisting tB
        (baidu_init_queue FA
          ++ (bb.path, [⟨bb.fs_id, bb.server_filename⟩]) :: baidu_init_queue FB) [] with
    | mk rr nq2 =>
      rw [hlv] at hlev
      simp only at hlev
      subst hlev
      simp
  exact ⟨hal, hba, by rw [hal]; rfl⟩

/-- Concrete aliyun share tree for the C7 witness: the root holds the single
folder b1, which holds the target file t at depth 2. -/
def c7AListing : String → AListing := fun cid =>
  if cid = "root" then .ok [⟨"b1", "bn", "folder"⟩]
  else if cid = "b1" then .ok [⟨"t", "tn", "file"⟩]
  else .ok []

/-- Concrete baidu share tree for the C7 witness: the root holds the single
directory bb, which holds the target tb at depth 2. -/
def c7BListing : String → BListing := fun p =>
  if p = "/bb" then .ok [⟨"tb", "tbn", 0, "/bb/tb"⟩]
  else .err

/-- C7 witness: the theorem applied to concrete 3-level trees with the
target at depth 2 for both resolvers. -/
theorem C7_bfs_shortest_breadcrumb_witness :
    c7AListing "root" = .ok [⟨"b1", "bn", "folder"⟩] ∧
    c7BListing "/bb" = .ok [⟨"tb", "tbn", 0, "/bb/tb"⟩] ∧
    ((bfs_share_path c7AListing "t" 2).1 = [⟨"b1", "bn"⟩, ⟨"t", "tn"⟩] ∧
     (bfs_share_tree [⟨"bb", "bbn", 1, "/bb"⟩] c7BListing "tb").2
       = [⟨"bb", "bbn"⟩, ⟨"tb", "tbn"⟩] ∧
     (bfs_share_path c7AListing "t" 2).1.length = 2) :=
  ⟨rfl, rfl,
    C7_bfs_shortest_breadcrumb c7AListing "t" [] [] [] []
      ⟨"b1", "bn", "folder"⟩ ⟨"t", "tn", "file"⟩ 2
      rfl rfl (by decide) (by decide) (by decide)
      (by intro it hit; simp at hit)
      rfl (by decide) rfl (by decide)
      c7BListing "tb" [] [] [] [] ⟨"bb", "bbn", 1, "/bb"⟩ ⟨"tb", "tbn", 0, "/bb/tb"⟩
      (by decide) rfl
      (by intro it hit; simp at hit)
      rfl (by decide) rfl⟩

/-! ## URL provider detection and the account router (claim C6)

    `AdapterFactory.URL_PATTERNS` (adapter_factory.py lines 33-40) maps
    domain regexes to drive types; every pattern is an alternation of
    literal domains, so `re.search` succeeds exactly when the url contains
    one of the domains as a substring.  `AccountManager.load_accounts`
    (lines 156-203, new `accounts` format) builds the name-keyed adapter
    dict and the default adapter; `AccountManager.get_adapter_for_task`
    (lines 213-240) selects the adapter for a task. -/

/-- The ordered URL pattern table, each entry the literal domains of the
regex alternation and the drive type. -/
def URL_PATTERNS : List (List String × String) :=
  [(["pan.quark.cn"], "quark"),
   (["115.com", "anxia.com", "115cdn.com"], "115"),
   (["pan.baidu.com"], "baidu"),
   (["pan.xunlei.com"], "xunlei"),
   (["alipan.com", "aliyundrive.com"], "aliyun"),
   (["drive.uc.cn"], "uc")]

/-- Model of `re.search(pattern, url)` for the domain patterns above. -/
def patMatches (doms : List String) (url : String) : Bool :=
  doms.any (fun s => decide (s.data <:+: url.data))

/-- Model of `AdapterFactory.get_drive_type_by_url` (lines 110-122): the
first pattern, in table order, that matches wins. -/
def get_drive_type_by_url (url : String) : Option String :=
  (URL_PATTERNS.find? (fun pat => patMatches pat.1 url)).map Prod.snd

/-- One configured account entry as `load_accounts` reads it. -/
structure AccountCfg where
  name : String
  drive_type : String
  cookie : String
  enabled : Bool
  is_default : Bool
deriving DecidableEq, Repr

/-- A live adapter instance as the router sees it: the factory keys
instances by `(drive_type, cookie)`, and `is_active` is the flag `init()`
later sets; whether a given credential's `init()` succeeded is supplied as
the oracle `activeOf`. -/
structure AdapterInst where
  drive_type : String
  cookie : String
  is_active : Bool
deriving DecidableEq, Repr

/-- Model of `AdapterFactory.create_adapter` as used by the router: an
unknown drive type yields no adapter; otherwise the (possibly shared)
instance for this credential. -/
def mkAdapter (activeOf : String → String → Bool) (dt cookie : String) :
    Option AdapterInst :=
  if dt ∈ ADAPTER_MAP then some ⟨dt, cookie, activeOf dt cookie⟩ else none

/-- Insertion into a Python dict: replace in place when the key exists,
append otherwise (insertion order is preserved, as for `dict`). -/
def dictInsert : List (String × AdapterInst) → String → AdapterInst →
    List (String × AdapterInst)
  | [], k, v => [(k, v)]
  | (k0, v0) :: rest, k, v =>
    if k0 = k then (k, v) :: rest else (k0, v0) :: dictInsert rest k v

/-- Lookup in a Python dict (`dict.get`). -/
def dictGet : List (String × AdapterInst) → String → Option AdapterInst
  | [], _ => none
  | (k0, v) :: rest, k => if k0 = k then some v else dictGet rest k

/-- Model of the `accounts` loop of `AccountManager.load_accounts`
(lines 169-182): disabled entries are skipped, construction failures are
skipped, otherwise the adapter is stored under the account name, and the
default adapter is set by each entry flagged `default` and by the first
loaded entry. -/
def load_accounts_go (activeOf : String → String → Bool) :
    List AccountCfg → List (String × AdapterInst) → Option AdapterInst →
    List (String × AdapterInst) × Option AdapterInst
  | [], adapters, dflt => (adapters, dflt)
  | acc :: rest, adapters, dflt =>
    if acc.enabled = false then load_accounts_go activeOf rest adapters dflt
    else
      match mkAdapter activeOf acc.drive_type acc.cookie with
      | none => load_accounts_go activeOf rest adapters dflt
      | some a =>
        load_accounts_go activeOf rest (dictInsert adapters acc.name a)
          (if acc.is_default ∨ dflt = none then some a else dflt)

/-- Model of `AccountManager.load_accounts` on the new `accounts` format:
the adapter dict and the default adapter, both starting empty. -/
def load_accounts (activeOf : String → String → Bool)
    (accounts : List AccountCfg) :
    List (String × AdapterInst) × Option AdapterInst :=
  load_accounts_go activeOf accounts [] none

/-- Model of `AccountManager.get_adapter_for_task` (lines 213-240):
(1) a non-empty task account name that names a loaded adapter wins;
(2) otherwise the first loaded adapter whose drive type matches the one
detected from the share url and whose `is_active` flag is set;
(3) otherwise the default adapter — `none` when there is none. -/
def get_adapter_for_task (adapters : List (String × AdapterInst))
    (default_adapter : Option AdapterInst) (account_name shareurl : String) :
    Option AdapterInst :=
  match (if account_name ≠ "" then dictGet adapters account_name else none) with
  | some a => some a
  | none =>
    match get_drive_type_by_url shareurl with
    | some dt =>
      match (adapters.map Prod.snd).find?
          (fun a => a.drive_type == dt && a.is_active) with
      | some a => some a
      | none => default_adapter
    | none => default_adapter

/-- The account the router's url fallback should pick, phrased on the raw
configuration: enabled, constructible, drive type matching, active. -/
def routerPred (activeOf : String → String → Bool) (dt : String)
    (c : AccountCfg) : Bool :=
  c.enabled && decide (c.drive_type ∈ ADAPTER_MAP) && (c.drive_type == dt)
    && activeOf c.drive_type c.cookie

theorem dictGet_insert_self (l : List (String × AdapterInst)) (k : String)
    (v : AdapterInst) : dictGet (dictInsert l k v) k = some v := by
  induction l with
  | nil => simp [dictInsert, dictGet]
  | cons p rest ih =>
    obtain ⟨k0, v0⟩ := p
    by_cases h : k0 = k
    · simp [dictInsert, dictGet, h]
    · simp only [dictInsert, if_neg h, dictGet]
      exact ih

theorem dictGet_insert_ne (l : List (String × AdapterInst)) (k k' : String)
    (v : AdapterInst) (h : k ≠ k') :
    dictGet (dictInsert l k v) k' = dictGet l k' := by
  induction l with
  | nil => simp [dictInsert, dictGet, h]
  | cons p rest ih =>
    obtain ⟨k0, v0⟩ := p
    by_cases h0 : k0 = k
    · subst h0
      simp only [dictInsert, if_pos rfl, dictGet]
      rw [if_neg h, if_neg h]
    · simp only [dictInsert, if_neg h0, dictGet]
      by_cases h1 : k0 = k'
      · rw [if_pos h1, if_pos h1]
      · rw [if_neg h1, if_neg h1]
        exact ih

theorem load_accounts_go_preserves (activeOf : String → String → Bool) :
    ∀ (accounts : List AccountCfg) (adapters : List (String × AdapterInst))
      (dflt : Option AdapterInst) (k : String),
      (∀ c ∈ accounts, c.name ≠ k) →
      dictGet (load_accounts_go activeOf accounts adapters dflt).1 k
        = dictGet adapters k := by
  intro accounts
  induction accounts with
  | nil => intro adapters dflt k _; rfl
  | cons a rest ih =>
    intro adapters dflt k h
    have ha : a.name ≠ k := h a (by simp)
    have hrest : ∀ c ∈ rest, c.name ≠ k := fun c hc => h c (by simp [hc])
    rw [load_accounts_go]
    by_cases he : a.enabled = false
    · simp only [if_pos he]
      exact ih _ _ _ hrest
    · simp only [if_neg he]
      cases hmk : mkAdapter activeOf a.drive_type a.cookie with
      | none => exact ih _ _ _ hrest
      | some ad =>
        rw [ih _ _ _ hrest]
        exact dictGet_insert_ne _ _ _ _ ha

theorem load_accounts_go_lookup (activeOf : String → String → Bool) :
    ∀ (accounts : List AccountCfg) (adapters : List (String × AdapterInst))
      (dflt : Option AdapterInst) (c : AccountCfg),
      c ∈ accounts → c.enabled = true → c.drive_type ∈ ADAPTER_MAP →
      (accounts.map AccountCfg.name).Nodup →
      dictGet (load_accounts_go activeOf accounts adapters dflt).1 c.name
        = some ⟨c.drive_type, c.cookie, activeOf c.drive_type c.cookie⟩ := by
  intro accounts
  induction accounts with
  | nil => intro _ _ c hc; simp at hc
  | cons a rest ih =>
    intro adapters dflt c hc hen hdt hnd
    have hndr : (rest.map AccountCfg.name).Nodup := by
      simp only [List.map_cons, List.nodup_cons] at hnd
      exact hnd.2
    rcases List.mem_cons.mp hc with rfl | hcr
    · rw [load_accounts_go]
      have hne : ¬ (c.enabled = false) := by simp [hen]
      simp only [if_neg hne]
      have hmk : mkAdapter activeOf c.drive_type c.cookie
          = some ⟨c.drive_type, c.cookie, activeOf c.drive_type c.cookie⟩ := by
        simp [mkAdapter, hdt]
      rw [hmk]
      have hrest : ∀ z ∈ rest, z.name ≠ c.name := by
        simp only [List.map_cons, List.nodup_cons, List.mem_map] at hnd
        intro z hz heq
        exact hnd.1 ⟨z, hz, heq⟩
      rw [load_accounts_go_preserves activeOf rest _ _ _ hrest]
      exact dictGet_insert_self _ _ _
    · rw [load_accounts_go]
      by_cases he : a.enabled = false
      · simp only [if_pos he]
        exact ih _ _ c hcr hen hdt hndr
      · simp only [if_neg he]
        cases hmk : mkAdapter activeOf a.drive_type a.cookie with
        | none => exact ih _ _ c hcr hen hdt hndr
        | some ad => exact ih _ _ c hcr hen hdt hndr

/-- The dict entry `load_accounts` produces for one configured account:
present exactly when the account is enabled and its drive type is known. -/
def loadEntry (activeOf : String → String → Bool) (c : AccountCfg) :
    Option (String × AdapterInst) :=
  if c.enabled = true ∧ c.drive_type ∈ ADAPTER_MAP then
    some (c.name, ⟨c.drive_type, c.cookie, activeOf c.drive_type c.cookie⟩)
  else none

theorem dictInsert_fresh :
    ∀ (l : List (String × AdapterInst)) (k : String) (v : AdapterInst),
      k ∉ l.map Prod.fst → dictInsert l k v = l ++ [(k, v)] := by
  intro l
  induction l with
  | nil => intro k v _; rfl
  | cons p rest ih =>
    intro k v h
    obtain ⟨k0, v0⟩ := p
    simp only [List.map_cons, List.mem_cons] at h
    push_neg at h
    rw [dictInsert, if_neg (fun hh => h.1 hh.symm)]
    rw [ih k v h.2]
    rfl

theorem load_accounts_go_values (activeOf : String → String → Bool) :
    ∀ (accounts : List AccountCfg) (adapters : List (String × AdapterInst))
      (dflt : Option AdapterInst),
      (∀ c ∈ accounts, c.name ∉ adapters.map Prod.fst) →
      (accounts.map AccountCfg.name).Nodup →
      (load_accounts_go activeOf accounts adapters dflt).1
        = adapters ++ accounts.filterMap (loadEntry activeOf) := by
  intro accounts
  induction accounts with
  | nil => intro adapters dflt _ _; simp [load_accounts_go]
  | cons a rest ih =>
    intro adapters dflt hfresh hnd
    have hndr : (rest.map AccountCfg.name).Nodup := by
      simp only [List.map_cons, List.nodup_cons] at hnd
      exact hnd.2
    have hfr : ∀ c ∈ rest, c.name ∉ adapters.map Prod.fst := fun c hc =>
      hfresh c (by simp [hc])
    by_cases he : a.enabled = false
    · have hstep : load_accounts_go activeOf (a :: rest) adapters dflt
          = load_accounts_go activeOf rest adapters dflt := by
        rw [load_accounts_go]
        simp only [if_pos he]
      rw [hstep, ih _ _ hfr hndr]
      have hle : loadEntry activeOf a = none := by
        simp [loadEntry, he]
      rw [List.filterMap_cons, hle]
    · have hen : a.enabled = true := by simpa using he
      cases hmk : mkAdapter activeOf a.drive_type a.cookie with
      | none =>
        have hstep : load_accounts_go activeOf (a :: rest) adapters dflt
            = load_accounts_go activeOf rest adapters dflt := by
          rw [load_accounts_go]
          simp only [if_neg he, hmk]
        have hdt : ¬ (a.drive_type ∈ ADAPTER_MAP) := by
          intro hmem
          simp [mkAdapter, hmem] at hmk
        rw [hstep, ih _ _ hfr hndr]
        have hle : loadEntry activeOf a = none := by
          simp [loadEntry, hdt]
        rw [List.filterMap_cons, hle]
      | some ad =>
        have hstep : load_accounts_go activeOf (a :: rest) adapters dflt
            = load_accounts_go activeOf rest (dictInsert adapters a.name ad)
              (if a.is_default = true ∨ dflt = none then some ad else dflt) := by
          rw [load_accounts_go]
          simp only [if_neg he, hmk]
        have hdt : a.drive_type ∈ ADAPTER_MAP := by
          by_contra hmem
          simp [mkAdapter, hmem] at hmk
        have had : ad = ⟨a.drive_type, a.cookie, activeOf a.drive_type a.cookie⟩ := by
          simp [mkAdapter, hdt] at hmk
          exact hmk.symm
        rw [hstep, dictInsert_fresh _ _ _ (hfresh a (by simp))]
        have hfr2 : ∀ c ∈ rest, c.name ∉ (adapters ++ [(a.name, ad)]).map Prod.fst := by
          intro c hc
          simp only [List.map_append, List.mem_append]
          push_neg
          refine ⟨hfr c hc, ?_⟩
          simp only [List.map_cons, List.map_nil, List.mem_singleton]
          intro heq
          simp only [List.map_cons, List.nodup_cons, List.mem_map] at hnd
          exact hnd.1 ⟨c, hc, heq⟩
        rw [ih _ _ hfr2 hndr]
        have hle : loadEntry activeOf a = some (a.name, ad) := by
          simp [loadEntry, hen, hdt, had]
        rw [List.filterMap_cons, hle]
        simp

theorem find_map_values (activeOf : String → String → Bool) (dt : String) :
    ∀ accounts : List AccountCfg,
      ((accounts.filterMap (loadEntry activeOf)).map Prod.snd).find?
          (fun a => a.drive_type == dt && a.is_active)
        = (accounts.find? (routerPred activeOf dt)).map
            (fun c => ⟨c.drive_type, c.cookie, activeOf c.drive_type c.cookie⟩) := by
  intro accounts
  induction accounts with
  | nil => rfl
  | cons a rest ih =>
    by_cases hsel : a.enabled = true ∧ a.drive_type ∈ ADAPTER_MAP
    · have hle : loadEntry activeOf a
          = some (a.name, ⟨a.drive_type, a.cookie, activeOf a.drive_type a.cookie⟩) := by
        simp [loadEntry, hsel.1, hsel.2]
      rw [List.filterMap_cons, hle, List.map_cons]
      by_cases hmatch :
          ((a.drive_type == dt) && activeOf a.drive_type a.cookie) = true
      · rw [List.find?_cons_of_pos _ (by simpa using hmatch)]
        rw [List.find?_cons_of_pos _ (by
          simp only [routerPred, hsel.1, Bool.true_and]
          simp only [Bool.and_eq_true] at hmatch ⊢
          exact ⟨⟨by simpa using hsel.2, hmatch.1⟩, hmatch.2⟩)]
        rfl
      · rw [List.find?_cons_of_neg _ (by simpa using hmatch)]
        rw [List.find?_cons_of_neg _ (by
          simp only [routerPred]
          intro hp
          apply hmatch
          simp only [Bool.and_eq_true] at hp
          exact (Bool.and_eq_true _ _).mpr ⟨hp.1.2, hp.2⟩)]
        exact ih
    · have hle : loadEntry activeOf a = none := by
        simp only [loadEntry, if_neg hsel]
      rw [List.filterMap_cons, hle]
      rw [List.find?_cons_of_neg _ (by
        simp only [routerPred]
        intro hp
        simp only [Bool.and_eq_true, decide_eq_true_eq] at hp
        exact hsel ⟨hp.1.1.1, hp.1.1.2⟩)]
      exact ih

/-- C6: the Account Router's selection priority.  (1) A task naming a
loaded (enabled, constructible) account always gets that account's adapter,
whatever the url detects.  (2) Otherwise, with the url's provider detected,
the router returns the adapter of the first enabled, constructible, active
account of that provider, in configuration order.  (3) With no provider
match (or no matching active account) the designated default account's
adapter is returned — and when none exists the explicit no-adapter signal
`none` is returned rather than a silent no-op. -/
theorem C6_router_priority (activeOf : String → String → Bool)
    (accounts : List AccountCfg) (url : String)
    (hnd : (accounts.map AccountCfg.name).Nodup) :
    (∀ c ∈ accounts, c.enabled = true → c.drive_type ∈ ADAPTER_MAP → c.name ≠ "" →
      get_adapter_for_task (load_accounts activeOf accounts).1
          (load_accounts activeOf accounts).2 c.name url
        = some ⟨c.drive_type, c.cookie, activeOf c.drive_type c.cookie⟩) ∧
    (∀ n : String,
      (n = "" ∨ dictGet (load_accounts activeOf accounts).1 n = none) →
      ∀ dt : String, get_drive_type_by_url url = some dt →
        ((∀ c : AccountCfg, accounts.find? (routerPred activeOf dt) = some c →
            get_adapter_for_task (load_accounts activeOf accounts).1
                (load_accounts activeOf accounts).2 n url
              = some ⟨c.drive_type, c.cookie, activeOf c.drive_type c.cookie⟩) ∧
         (accounts.find? (routerPred activeOf dt) = none →
            get_adapter_for_task (load_accounts activeOf accounts).1
                (load_accounts activeOf accounts).2 n url
              = (load_accounts activeOf accounts).2))) ∧
    (∀ n : String,
      (n = "" ∨ dictGet (load_accounts activeOf accounts).1 n = none) →
      get_drive_type_by_url url = none →
      get_adapter_for_task (load_accounts activeOf accounts).1
          (load_accounts activeOf accounts).2 n url
        = (load_accounts activeOf accounts).2) := by
  have hval : (load_accounts activeOf accounts).1
      = accounts.filterMap (loadEntry activeOf) := by
    have := load_accounts_go_values activeOf accounts [] none (by simp) hnd
    simpa [load_accounts] using this
  refine ⟨?_, ?_, ?_⟩
  · intro c hc hen hdt hname
    have hlk := load_accounts_go_lookup activeOf accounts [] none c hc hen hdt hnd
    simp only [load_accounts] at hlk ⊢
    simp [get_adapter_for_task, hname, hlk]
  · intro n hn dt hdt
    have hstep1 : (if n ≠ "" then dictGet (load_accounts activeOf accounts).1 n
        else none) = none := by
      rcases hn with rfl | hnone
      · simp
      · simp [hnone]
    have hfind := find_map_values activeOf dt accounts
    constructor
    · intro c hfc
      simp only [get_adapter_for_task, hstep1, hdt]
      rw [hval, hfind, hfc]
      rfl
    · intro hfc
      simp only [get_adapter_for_task, hstep1, hdt]
      rw [hval, hfind, hfc]
      rfl
  · intro n hn hdt
    have hstep1 : (if n ≠ "" then dictGet (load_accounts activeOf accounts).1 n
        else none) = none := by
      rcases hn with rfl | hnone
      · simp
      · simp [hnone]
    simp only [get_adapter_for_task, hstep1, hdt]

/-- Concrete configuration for the C6 witness: an enabled xunlei account
named acctX and an enabled quark account named acctQ; every credential's
`init()` is taken to succeed. -/
def c6Accounts : List AccountCfg :=
  [⟨"acctX", "xunlei", "ckX", true, false⟩,
   ⟨"acctQ", "quark", "ckQ", true, false⟩]

/-- Activation oracle for the C6 witness. -/
def c6Active : String → String → Bool := fun _ _ => true

/-- C6 witness: with a quark share url, the task naming acctX still gets the
xunlei adapter (priority 1 beats the url match); an anonymous task gets the
first active quark account; an unrecognized url falls back to the default
adapter. -/
theorem C6_router_priority_witness :
    (c6Accounts.map AccountCfg.name).Nodup ∧
    get_adapter_for_task (load_accounts c6Active c6Accounts).1
        (load_accounts c6Active c6Accounts).2 "acctX" "https://pan.quark.cn/s/abc"
      = some ⟨"xunlei", "ckX", true⟩ ∧
    get_adapter_for_task (load_accounts c6Active c6Accounts).1
        (load_accounts c6Active c6Accounts).2 "" "https://pan.quark.cn/s/abc"
      = some ⟨"quark", "ckQ", true⟩ ∧
    get_adapter_for_task (load_accounts c6Active c6Accounts).1
        (load_accounts c6Active c6Accounts).2 "" "https://example.com/x"
      = (load_accounts c6Active c6Accounts).2 := by
  refine ⟨by decide, ?_, ?_, ?_⟩
  · exact (C6_router_priority c6Active c6Accounts "https://pan.quark.cn/s/abc"
      (by decide)).1 ⟨"acctX", "xunlei", "ckX", true, false⟩ (by decide) rfl
      (by decide) (by decide)
  · exact ((C6_router_priority c6Active c6Accounts "https://pan.quark.cn/s/abc"
      (by decide)).2.1 "" (Or.inl rfl) "quark" (by decide)).1
      ⟨"acctQ", "quark", "ckQ", true, false⟩ (by decide)
  · exact (C6_router_priority c6Active c6Accounts "https://example.com/x"
      (by decide)).2.2 "" (Or.inl rfl) (by decide)

/-! ## Error/result normalization (claim C8)

    `AliyunAdapter.get_stoken` (aliyun_adapter.py lines 340-375) wraps the
    two provider calls in `try/except`; `XunleiAdapter._request`
    (xunlei_adapter.py lines 281-298) wraps the HTTP call and JSON parse.
    Raised transports are embedded as `Except.error`, which the translated
    handlers catch into tagged failure dicts. -/

/-- What `get_stoken` reads from the anonymous share-info body. -/
structure AShareInfo where
  code : Option String
deriving DecidableEq, Repr

/-- What `get_stoken` reads from the share-token body. -/
structure AShareTok where
  code : Option String
  share_token : String
deriving DecidableEq, Repr

/-- The normalized result dict of `get_stoken`: status, code, message and
the success payload's share token. -/
structure StokenResult where
  status : Nat
  code : Nat
  message : String
  stoken : Option String
deriving DecidableEq, Repr

/-- Model of `AliyunAdapter.get_stoken`: a raised provider call is caught by
the surrounding `try` into a status-500 failure dict; an error `code` in
either body becomes a status-400 failure dict with the mapped message (an
empty falsy body is modelled as carrying code "Unknown"); otherwise the
status-200 success dict.  The result is always a plain dict — no exception
crosses this boundary. -/
def get_stoken (share_info : Except String AShareInfo)
    (share_token : Except String AShareTok) : StokenResult :=
  match share_info with
  | .error e => ⟨500, 1, e, none⟩
  | .ok si =>
    match si.code with
    | some c => ⟨400, 1, aliyun_error_message c, none⟩
    | none =>
      match share_token with
      | .error e => ⟨500, 1, e, none⟩
      | .ok st =>
        match st.code with
        | some c => ⟨400, 1, aliyun_error_message c, none⟩
        | none => ⟨200, 0, "success", some st.share_token⟩

/-- What `XunleiAdapter._request` returns: the parsed body, or the tagged
error dict it builds itself. -/
inductive XReqResult (γ : Type) where
  | body (v : γ)
  | errorDict (code msg : String)
deriving DecidableEq, Repr

/-- Model of `XunleiAdapter._request`: invalid tokens yield the tagged
TokenInvalid dict, a raised request or parse is caught into the tagged
RequestError dict, and otherwise the parsed body is returned unchanged. -/
def xunlei_request {γ : Type} (tokens_valid : Bool)
    (transport : Except String γ) : XReqResult γ :=
  if tokens_valid = false then .errorDict "TokenInvalid" "Token 无效"
  else
    match transport with
    | .error e => .errorDict "RequestError" e
    | .ok v => .body v

/-- C8: no adapter operation raises across the boundary for expected
provider failures or transport failures — each returns a tagged result.
(1) `get_stoken` always evaluates to a dict that is either the code-0
status-200 success or a code-1 failure with status 400 or 500;
(2) every expected provider error code of the aliyun table (quota, invalid
password, expired link, auth invalid, rate limited, ...) maps to the
status-400 tagged failure carrying the table's message;
(3) a raised transport maps to the status-500 tagged failure carrying the
exception text;
(4) `XunleiAdapter._request` returns either the parsed body (only when the
tokens were valid) or one of its tagged error dicts. -/
theorem C8_never_raises_tagged_results :
    (∀ (si : Except String AShareInfo) (st : Except String AShareTok),
      ((get_stoken si st).status = 200 ∧ (get_stoken si st).code = 0 ∧
        (get_stoken si st).stoken.isSome) ∨
      ((get_stoken si st).code = 1 ∧
        ((get_stoken si st).status = 400 ∨ (get_stoken si st).status = 500))) ∧
    (∀ c ∈ ALIYUN_ERROR_CODES.map Prod.fst, ∀ st : Except String AShareTok,
      get_stoken (.ok ⟨some c⟩) st = ⟨400, 1, aliyun_error_message c, none⟩) ∧
    (∀ (m : String) (st : Except String AShareTok),
      get_stoken (.error m) st = ⟨500, 1, m, none⟩) ∧
    (∀ (γ : Type) (tv : Bool) (tr : Except String γ),
      (∃ v, tr = .ok v ∧ tv = true ∧ xunlei_request tv tr = .body v) ∨
      (∃ code msg, xunlei_request tv tr = .errorDict code msg)) := by
  refine ⟨?_, ?_, ?_, ?_⟩
  · intro si st
    cases si with
    | error e => right; simp [get_stoken]
    | ok siv =>
      cases hc : siv.code with
      | some c => right; simp [get_stoken, hc]
      | none =>
        cases st with
        | error e => right; simp [get_stoken, hc]
        | ok stv =>
          cases hc2 : stv.code with
          | some c => right; simp [get_stoken, hc, hc2]
          | none => left; simp [get_stoken, hc, hc2]
  · intro c _ st
    simp [get_stoken]
  · intro m st
    rfl
  · intro γ tv tr
    cases tv with
    | false => right; exact ⟨"TokenInvalid", "Token 无效", rfl⟩
    | true =>
      cases tr with
      | error e => right; exact ⟨"RequestError", e, rfl⟩
      | ok v => left; exact ⟨v, rfl, rfl, rfl⟩

/-- C8 witness: the theorem applied to the rate-limit provider code
"ParamFlowException" and a concrete raised transport. -/
theorem C8_never_raises_tagged_results_witness :
    "ParamFlowException" ∈ ALIYUN_ERROR_CODES.map Prod.fst ∧
    get_stoken (.ok ⟨some "ParamFlowException"⟩) (.ok ⟨none, "stok"⟩)
      = ⟨400, 1, aliyun_error_message "ParamFlowException", none⟩ ∧
    get_stoken (.error "timeout") (.ok ⟨none, "stok"⟩)
      = ⟨500, 1, "timeout", none⟩ ∧
    ((∃ v, (Except.ok (ε := String) 7 = Except.ok v) ∧ true = true ∧
        xunlei_request true (Except.ok (ε := String) 7) = .body v) ∨
     (∃ code msg, xunlei_request true (Except.ok (ε := String) 7)
        = .errorDict code msg)) :=
  ⟨by decide,
   C8_never_raises_tagged_results.2.1 "ParamFlowException" (by decide) _,
   C8_never_raises_tagged_results.2.2.1 "timeout" _,
   C8_never_raises_tagged_results.2.2.2 Nat true (Except.ok 7)⟩

/-! ## Claim C10: AliyunAdapter.get_file_path -/

/-- One item of the aliyun `get_path` response body. -/
structure PathItem where
  file_id : String
  name : String
deriving DecidableEq, Repr

/-- What the Python `get_file_path` evaluates to: the value `None` (the
result of `list.reverse()`) or a list of breadcrumb dicts. -/
inductive GetFilePathResult where
  | pyNone
  | pyList (l : List Crumb)
deriving DecidableEq, Repr

/-- Model of `AliyunAdapter.get_file_path` (aliyun_adapter.py lines
883-913).  An invalid token, a root-like file id ("", "0" or "root"), an
empty drive id, or a raised request (caught by the `except`) each return the
empty list.  When the request parses, the non-root items are collected into
`path`, and the function executes `return path.reverse()` — Python's
`list.reverse()` reverses in place and evaluates to `None`, so the function
returns `None`, discarding the list its interface promises. -/
def get_file_path (token_valid : Bool) (drive_id file_id : String)
    (resp : Except String (List PathItem)) : GetFilePathResult :=
  if token_valid = false then .pyList []
  else if file_id = "" ∨ file_id = "0" ∨ file_id = "root" then .pyList []
  else if drive_id = "" then .pyList []
  else
    match resp with
    | .error _ => .pyList []
    | .ok items =>
      let _path := (items.filter
        (fun it => (it.file_id != "") && (it.file_id != "root"))).map
        (fun it => (⟨it.file_id, it.name⟩ : Crumb))
      .pyNone

/-- C10: `get_file_path` never returns a non-empty breadcrumb list: it
returns the empty list when the token is invalid, when the id is root-like,
or when the lookup raises, and whenever the provider lookup succeeds with at
least one non-root item it returns `None` — the value of `path.reverse()` —
never the reversed `(fid, name)` list its interface promises. -/
theorem C10_get_file_path_never_breadcrumb :
    (∀ (tv : Bool) (d f : String) (resp : Except String (List PathItem))
      (l : List Crumb), get_file_path tv d f resp = .pyList l → l = []) ∧
    (∀ (d f : String) (resp : Except String (List PathItem)),
      get_file_path false d f resp = .pyList []) ∧
    (∀ (tv : Bool) (d f : String) (resp : Except String (List PathItem)),
      (f = "" ∨ f = "0" ∨ f = "root") → get_file_path tv d f resp = .pyList []) ∧
    (∀ (tv : Bool) (d f e : String), get_file_path tv d f (.error e) = .pyList []) ∧
    (∀ (d f : String) (items : List PathItem),
      ¬ (f = "" ∨ f = "0" ∨ f = "root") → d ≠ "" →
      (∃ it ∈ items, it.file_id ≠ "" ∧ it.file_id ≠ "root") →
      get_file_path true d f (.ok items) = .pyNone) := by
  refine ⟨?_, ?_, ?_, ?_, ?_⟩
  · intro tv d f resp l h
    unfold get_file_path at h
    split at h
    · simp at h; exact h
    · split at h
      · simp at h; exact h
      · split at h
        · simp at h; exact h
        · split at h
          · simp at h; exact h
          · simp at h
  · intro d f resp
    simp [get_file_path]
  · intro tv d f resp hf
    unfold get_file_path
    split
    · rfl
    · simp [hf]
  · intro tv d f e
    unfold get_file_path
    split
    · rfl
    · split
      · rfl
      · split
        · rfl
        · rfl
  · intro d f items hf hd _
    unfold get_file_path
    rw [if_neg (by simp), if_neg hf, if_neg hd]

/-- C10 witness: the theorem applied to concrete inputs — a successful
lookup with one non-root item yields `None`, and each guard yields the
empty list. -/
theorem C10_get_file_path_never_breadcrumb_witness :
    get_file_path true "drv" "f9" (.ok [⟨"p1", "dir1"⟩]) = .pyNone ∧
    get_file_path false "drv" "f9" (.ok [⟨"p1", "dir1"⟩]) = .pyList [] ∧
    get_file_path true "drv" "root" (.ok [⟨"p1", "dir1"⟩]) = .pyList [] ∧
    get_file_path true "drv" "f9" (.error "timeout") = .pyList [] ∧
    (get_file_path true "drv" "f9" (.ok [⟨"p1", "dir1"⟩]) = .pyList [] → False) :=
  ⟨C10_get_file_path_never_breadcrumb.2.2.2.2 "drv" "f9" [⟨"p1", "dir1"⟩]
      (by decide) (by decide) ⟨⟨"p1", "dir1"⟩, by simp, by decide, by decide⟩,
   C10_get_file_path_never_breadcrumb.2.1 "drv" "f9" (.ok [⟨"p1", "dir1"⟩]),
   C10_get_file_path_never_breadcrumb.2.2.1 true "drv" "root"
      (.ok [⟨"p1", "dir1"⟩]) (by simp),
   C10_get_file_path_never_breadcrumb.2.2.2.1 true "drv" "f9" "timeout",
   by
     intro h
     have := C10_get_file_path_never_breadcrumb.2.2.2.2 "drv" "f9" [⟨"p1", "dir1"⟩]
       (by decide) (by decide) ⟨⟨"p1", "dir1"⟩, by simp, by decide, by decide⟩
     rw [this] at h
     exact absurd h (by simp)⟩

end CloudAutoSave
